import Mathlib

/-!
Shallow embedding of the chess rules engine in `src/chess-board/types.ts`
(classes `Square`, `ChessTile`, `Piece` and its six variants, `Move`,
`ChessBoard`).

Modelling conventions:
* TS objects with reference identity (pieces are mutable objects aliased by
  tiles, moves and the king-tile trackers) are modelled by a piece store
  `pieces : List Piece` indexed by `PieceId := Nat`; the 8×8 tile grid maps
  squares to `Option PieceId`.  Mutating a flag on a piece object becomes an
  update of the store at that id, which faithfully reproduces the aliasing
  (e.g. `(lastMove.movePiece as Pawn).doubleStep = false` also affects the
  piece referenced by a `Move`).
* A TS `Square` has optional `file`/`rank` fields; the invalid sentinel
  (both `undefined`) is the constructor `Square.invalid`.
* `Pawn.doubleStep` exists only on pawns in TS; reading it on another class
  yields `undefined`, which is falsy.  Here every `Piece` carries the field,
  `false` playing the role of `undefined`; likewise for the two king flags.
* The TS non-null assertions (`!`) would throw on `undefined`; they are only
  exercised on valid data in the claims.  Where the model must choose, such
  a would-be crash is modelled as a no-op (always marked with a comment).
* `history` keeps the most recent move first (`push` = cons, the TS array
  keeps it last); `undoLastMove` pops the head.
-/

inductive Color
  | white
  | black
deriving DecidableEq, Repr

def Color.other : Color → Color
  | .white => .black
  | .black => .white

inductive PieceKind
  | pawn
  | knight
  | bishop
  | rook
  | queen
  | king
deriving DecidableEq, Repr

def PieceKind.isKing : PieceKind → Bool
  | .king => true
  | _ => false

def PieceKind.isRook : PieceKind → Bool
  | .rook => true
  | _ => false

def PieceKind.isPawn : PieceKind → Bool
  | .pawn => true
  | _ => false

/-- Mutable per-object piece data: the class tag, the color, `Pawn.doubleStep`
and the two `King` castling flags (`false` stands for the TS `undefined` on
classes that lack the field). -/
structure Piece where
  kind : PieceKind
  pieceColor : Color
  doubleStep : Bool
  canCastleKing : Bool
  canCastleQueen : Bool
deriving DecidableEq, Repr

def Piece.withDoubleStep (v : Bool) (p : Piece) : Piece :=
  { p with doubleStep := v }

def Piece.withCanCastleKing (v : Bool) (p : Piece) : Piece :=
  { p with canCastleKing := v }

def Piece.withCanCastleQueen (v : Bool) (p : Piece) : Piece :=
  { p with canCastleQueen := v }

abbrev PieceId := Nat

/-- A TS `Square`: either the invalid sentinel (both fields `undefined`) or a
valid file/rank pair; `file = 0` is file "a", `rank = 0` is chess rank 1. -/
inductive Square
  | invalid
  | valid (file : Fin 8) (rank : Fin 8)
deriving DecidableEq, Repr

def Square.isValid : Square → Bool
  | .invalid => false
  | .valid _ _ => true

/-- `Square.simplify`: 0-based integer coordinates, `(-1, -1)` for the invalid
sentinel. -/
def Square.simplify : Square → Int × Int
  | .invalid => (-1, -1)
  | .valid f r => ((f : Int), (r : Int))

/-- `Square.chessify`: bounds-check and build a square from 0-based integer
coordinates, the invalid sentinel when off the 8×8 board. -/
def Square.chessify (file rank : Int) : Square :=
  if h : 0 ≤ file ∧ file < 8 ∧ 0 ≤ rank ∧ rank < 8 then
    Square.valid ⟨file.toNat, by omega⟩ ⟨rank.toNat, by omega⟩
  else Square.invalid

/-- `Square.add`: simplify (the invalid sentinel becomes `(-1, -1)`), offset,
re-chessify. -/
def Square.add (s : Square) (fileAdd rankAdd : Int) : Square :=
  Square.chessify (s.simplify.1 + fileAdd) (s.simplify.2 + rankAdd)

def fileLetterStr (f : Fin 8) : String :=
  ["a", "b", "c", "d", "e", "f", "g", "h"].getD f.val ""

/-- TS `square.file` (the letter, `undefined` on the sentinel). -/
def Square.fileLetter : Square → Option String
  | .invalid => none
  | .valid f _ => some (fileLetterStr f)

/-- TS `square.rank` (the 1-based chess rank, `undefined` on the sentinel). -/
def Square.rankChess : Square → Option Nat
  | .invalid => none
  | .valid _ r => some (r.val + 1)

/-- TS `Square.toString`, which renders the sentinel's `undefined` fields
verbatim. -/
def Square.toStr : Square → String
  | .invalid => "undefinedundefined"
  | .valid f r => fileLetterStr f ++ toString (r.val + 1)

inductive CheckType
  | none
  | check
  | checkmate
  | stalemate
  | nomaterial
deriving DecidableEq, Repr

/-- The immutable `Move` record.  `movePieceId` / `capturePieceId` stand for
the TS object references `movePiece` / `capturePiece`. -/
structure Move where
  startingSquare : Square
  targetSquare : Square
  movePieceId : PieceId
  isCapture : Bool
  isEnPassant : Bool
  isCastles : Bool
  isDoubleStep : Bool
  cancelQueensideCastles : Bool
  cancelKingsideCastles : Bool
  capturePieceId : Option PieceId
  checkType : CheckType
deriving DecidableEq, Repr

/-- The `ChessBoard` state: tile grid (`tiles[rankIdx][fileIdx]`), the piece
store, the turn, the two tracked king tiles (a tile's identity is its square)
and the move history (most recent first). -/
structure ChessBoard where
  tiles : List (List (Option PieceId))
  pieces : List Piece
  turn : Color
  whiteKingSq : Square
  blackKingSq : Square
  history : List Move
deriving DecidableEq, Repr

/-- TS `ChessBoard.getTile`: `none` iff the square is invalid; the inner
option is the tile's `piece` field. -/
def ChessBoard.tileGet (b : ChessBoard) (s : Square) : Option (Option PieceId) :=
  match s with
  | .invalid => none
  | .valid f r => some (((b.tiles.getD r.val []).getD f.val none))

/-- Writing `tile.piece` through `getTile(...)!`.  On the invalid sentinel the
TS code would throw on the non-null assertion; modelled as a no-op (never
exercised on valid inputs). -/
def ChessBoard.tileSet (b : ChessBoard) (s : Square) (p : Option PieceId) : ChessBoard :=
  match s with
  | .invalid => b
  | .valid f r =>
    { b with tiles := b.tiles.set r.val ((b.tiles.getD r.val []).set f.val p) }

/-- Dereference a piece object.  Ids out of range of the store never occur on
boards built by `createChessBoard`; the default is inert. -/
def ChessBoard.pieceGet (b : ChessBoard) (pid : PieceId) : Piece :=
  b.pieces.getD pid ⟨PieceKind.pawn, Color.white, false, false, false⟩

def ChessBoard.pieceSet (b : ChessBoard) (pid : PieceId) (f : Piece → Piece) : ChessBoard :=
  { b with pieces := b.pieces.set pid (f (b.pieceGet pid)) }

def ChessBoard.kingTileSq (b : ChessBoard) (c : Color) : Square :=
  match c with
  | .white => b.whiteKingSq
  | .black => b.blackKingSq

/-- TS `getKing(color)` yields `whiteKingTile.piece as King`; here the
occupant id of the tracked king tile. -/
def ChessBoard.getKingId (b : ChessBoard) (c : Color) : Option PieceId :=
  (b.tileGet (b.kingTileSq c)).getD none

/-- Writing `getKing(color).canCastleKing = v`.  When the tracked tile holds
no piece the TS code would throw; modelled as a no-op. -/
def ChessBoard.setCanCastleKing (b : ChessBoard) (c : Color) (v : Bool) : ChessBoard :=
  match b.getKingId c with
  | some kid => b.pieceSet kid (Piece.withCanCastleKing v)
  | none => b

def ChessBoard.setCanCastleQueen (b : ChessBoard) (c : Color) (v : Bool) : ChessBoard :=
  match b.getKingId c with
  | some kid => b.pieceSet kid (Piece.withCanCastleQueen v)
  | none => b

/-- `Move.cancelsCastlesKingside`: the moving piece is a King or a Rook (any
rook). -/
def cancelsCastlesKingside (b : ChessBoard) (pid : PieceId) : Bool :=
  (b.pieceGet pid).kind.isKing || (b.pieceGet pid).kind.isRook

/-- `Move.cancelsCastlesQueenside`: identical test. -/
def cancelsCastlesQueenside (b : ChessBoard) (pid : PieceId) : Bool :=
  (b.pieceGet pid).kind.isKing || (b.pieceGet pid).kind.isRook

/-- The `Move` constructor with `checkCalculation = false` (the value passed
at every internal call site: legality filtering, check detection and the
classifier all construct moves without check calculation, so `checkType`
stays `"none"`).  The variant with check calculation is `mkMoveChecked`
below, which also returns the board state the tentative classification
leaves behind. -/
def mkMove (b : ChessBoard) (castleCalculation : Bool) (startingSquare targetSquare : Square)
    (movePieceId : PieceId) (isCapture isEnPassant isCastles isDoubleStep : Bool)
    (capturePieceId : Option PieceId) : Move :=
  { startingSquare := startingSquare
    targetSquare := targetSquare
    movePieceId := movePieceId
    isCapture := isCapture
    isEnPassant := isEnPassant
    isCastles := isCastles
    isDoubleStep := isDoubleStep
    cancelQueensideCastles := castleCalculation && cancelsCastlesQueenside b movePieceId
    cancelKingsideCastles := castleCalculation && cancelsCastlesKingside b movePieceId
    capturePieceId := capturePieceId
    checkType := CheckType.none }

/-- `Piece.checkAndAdd` (the generic helper shared by Knight, Bishop, Rook,
Queen, King): returns the move it would push, if any. -/
def checkAndAdd (b : ChessBoard) (castleCalc : Bool) (pid : PieceId)
    (startingSquare targetSquare : Square) : Option Move :=
  match b.tileGet targetSquare with
  | Option.none => Option.none
  | some Option.none =>
    some (mkMove b castleCalc startingSquare targetSquare pid false false false false none)
  | some (some q) =>
    if (b.pieceGet q).pieceColor = (b.pieceGet pid).pieceColor then none
    else some (mkMove b castleCalc startingSquare targetSquare pid true false false false (some q))

/-- `Pawn.checkAndAdd` (the forward-push override): only onto an empty tile;
`isDoubleStep` iff the chess-rank delta exceeds 1 (`Math.abs` on
`undefined` ranks is `NaN`, and `NaN > 1` is false, hence the fallback). -/
def pawnCheckAndAdd (b : ChessBoard) (castleCalc : Bool) (pid : PieceId)
    (startingSquare targetSquare : Square) : Option Move :=
  match b.tileGet targetSquare with
  | Option.none => Option.none
  | some (some _) => Option.none
  | some Option.none =>
    let isDs : Bool :=
      match targetSquare.rankChess, startingSquare.rankChess with
      | some tr, some sr => decide (((tr : Int) - (sr : Int)).natAbs > 1)
      | _, _ => false
    some (mkMove b castleCalc startingSquare targetSquare pid false false false isDs none)

/-- `Pawn.checkAndAddDiagonal`.  Ordinary capture when an enemy piece occupies
the diagonal; otherwise the en-passant branches.  The black branch mirrors
the source faithfully, including its non-negated `instanceof Pawn` test
(line 271) and the falsy read of `doubleStep` on a non-pawn. -/
def checkAndAddDiagonal (b : ChessBoard) (castleCalc : Bool) (pid : PieceId)
    (startingSquare targetSquare : Square) : Option Move :=
  match b.tileGet targetSquare with
  | Option.none => Option.none
  | some (some q) =>
    if (b.pieceGet q).pieceColor = (b.pieceGet pid).pieceColor then none
    else some (mkMove b castleCalc startingSquare targetSquare pid true false false false (some q))
  | some Option.none =>
    if (b.pieceGet pid).pieceColor = Color.white then
      if startingSquare.rankChess ≠ some 5 then none
      else
        match (b.tileGet (targetSquare.add 0 (-1))).getD none with
        | Option.none => Option.none
        | some cp =>
          if ¬ (b.pieceGet cp).kind.isPawn then none
          else if (b.pieceGet cp).doubleStep then
            some (mkMove b castleCalc startingSquare targetSquare pid true true false false (some cp))
          else none
    else
      if startingSquare.rankChess ≠ some 4 then none
      else
        match (b.tileGet (targetSquare.add 0 1)).getD none with
        | Option.none => Option.none
        | some cp =>
          if (b.pieceGet cp).kind.isPawn then none
          else if (b.pieceGet cp).doubleStep then
            some (mkMove b castleCalc startingSquare targetSquare pid true true false false (some cp))
          else none

/-- `Pawn.possibleMoves`. -/
def pawnPossibleMoves (b : ChessBoard) (castleCalc : Bool) (pid : PieceId)
    (startingSquare : Square) : List Move :=
  if (b.pieceGet pid).pieceColor = Color.white then
    let first := pawnCheckAndAdd b castleCalc pid startingSquare (startingSquare.add 0 1)
    let moves := first.toList
    let moves :=
      if first.isSome ∧ startingSquare.rankChess = some 2 then
        moves ++ (pawnCheckAndAdd b castleCalc pid startingSquare (startingSquare.add 0 2)).toList
      else moves
    let moves := moves ++ (checkAndAddDiagonal b castleCalc pid startingSquare (startingSquare.add 1 1)).toList
    moves ++ (checkAndAddDiagonal b castleCalc pid startingSquare (startingSquare.add (-1) 1)).toList
  else
    let first := pawnCheckAndAdd b castleCalc pid startingSquare (startingSquare.add 0 (-1))
    let moves := first.toList
    let moves :=
      if first.isSome ∧ startingSquare.rankChess = some 7 then
        moves ++ (pawnCheckAndAdd b castleCalc pid startingSquare (startingSquare.add 0 (-2))).toList
      else moves
    let moves := moves ++ (checkAndAddDiagonal b castleCalc pid startingSquare (startingSquare.add 1 (-1))).toList
    moves ++ (checkAndAddDiagonal b castleCalc pid startingSquare (startingSquare.add (-1) (-1))).toList

/-- One arm of a sliding-piece loop iteration: skipped when the direction is
done; otherwise the `done` flag becomes `!newMove || newMove.isCapture`. -/
def rayStep (b : ChessBoard) (castleCalc : Bool) (pid : PieceId) (startingSquare : Square)
    (df dr : Int) (done : Bool) (moves : List Move) : List Move × Bool :=
  if done then (moves, true)
  else
    match checkAndAdd b castleCalc pid startingSquare (startingSquare.add df dr) with
    | Option.none => (moves, true)
    | some m => (moves ++ [m], m.isCapture)

/-- `Rook.possibleMoves`' loop body for `i = 1..7` (`fuel` counts the
remaining iterations), interleaving top, bottom, right, left. -/
def rookLoopAux (b : ChessBoard) (castleCalc : Bool) (pid : PieceId) (startingSquare : Square) :
    Nat → Int → Bool → Bool → Bool → Bool → List Move → List Move
  | 0, _, _, _, _, _, moves => moves
  | fuel + 1, i, topDone, bottomDone, rightDone, leftDone, moves =>
    let r1 := rayStep b castleCalc pid startingSquare 0 i topDone moves
    let r2 := rayStep b castleCalc pid startingSquare 0 (-i) bottomDone r1.1
    let r3 := rayStep b castleCalc pid startingSquare i 0 rightDone r2.1
    let r4 := rayStep b castleCalc pid startingSquare (-i) 0 leftDone r3.1
    rookLoopAux b castleCalc pid startingSquare fuel (i + 1) r1.2 r2.2 r3.2 r4.2 r4.1

def rookPossibleMoves (b : ChessBoard) (castleCalc : Bool) (pid : PieceId)
    (startingSquare : Square) : List Move :=
  rookLoopAux b castleCalc pid startingSquare 7 1 false false false false []

/-- `Bishop.possibleMoves`' loop, interleaving topRight, bottomRight, topLeft,
bottomLeft. -/
def bishopLoopAux (b : ChessBoard) (castleCalc : Bool) (pid : PieceId) (startingSquare : Square) :
    Nat → Int → Bool → Bool → Bool → Bool → List Move → List Move
  | 0, _, _, _, _, _, moves => moves
  | fuel + 1, i, topRightDone, bottomRightDone, topLeftDone, bottomLeftDone, moves =>
    let r1 := rayStep b castleCalc pid startingSquare i i topRightDone moves
    let r2 := rayStep b castleCalc pid startingSquare i (-i) bottomRightDone r1.1
    let r3 := rayStep b castleCalc pid startingSquare (-i) i topLeftDone r2.1
    let r4 := rayStep b castleCalc pid startingSquare (-i) (-i) bottomLeftDone r3.1
    bishopLoopAux b castleCalc pid startingSquare fuel (i + 1) r1.2 r2.2 r3.2 r4.2 r4.1

def bishopPossibleMoves (b : ChessBoard) (castleCalc : Bool) (pid : PieceId)
    (startingSquare : Square) : List Move :=
  bishopLoopAux b castleCalc pid startingSquare 7 1 false false false false []

/-- `Queen.possibleMoves`' loop, interleaving top, bottom, right, left,
topRight, bottomRight, topLeft, bottomLeft. -/
def queenLoopAux (b : ChessBoard) (castleCalc : Bool) (pid : PieceId) (startingSquare : Square) :
    Nat → Int → Bool → Bool → Bool → Bool → Bool → Bool → Bool → Bool → List Move → List Move
  | 0, _, _, _, _, _, _, _, _, _, moves => moves
  | fuel + 1, i, topDone, bottomDone, rightDone, leftDone,
      topRightDone, bottomRightDone, topLeftDone, bottomLeftDone, moves =>
    let r1 := rayStep b castleCalc pid startingSquare 0 i topDone moves
    let r2 := rayStep b castleCalc pid startingSquare 0 (-i) bottomDone r1.1
    let r3 := rayStep b castleCalc pid startingSquare i 0 rightDone r2.1
    let r4 := rayStep b castleCalc pid startingSquare (-i) 0 leftDone r3.1
    let r5 := rayStep b castleCalc pid startingSquare i i topRightDone r4.1
    let r6 := rayStep b castleCalc pid startingSquare i (-i) bottomRightDone r5.1
    let r7 := rayStep b castleCalc pid startingSquare (-i) i topLeftDone r6.1
    let r8 := rayStep b castleCalc pid startingSquare (-i) (-i) bottomLeftDone r7.1
    queenLoopAux b castleCalc pid startingSquare fuel (i + 1)
      r1.2 r2.2 r3.2 r4.2 r5.2 r6.2 r7.2 r8.2 r8.1

def queenPossibleMoves (b : ChessBoard) (castleCalc : Bool) (pid : PieceId)
    (startingSquare : Square) : List Move :=
  queenLoopAux b castleCalc pid startingSquare 7 1 false false false false false false false false []

/-- `Knight.possibleMoves`: the eight fixed offsets in source order. -/
def knightPossibleMoves (b : ChessBoard) (castleCalc : Bool) (pid : PieceId)
    (s : Square) : List Move :=
  (checkAndAdd b castleCalc pid s (s.add 1 2)).toList
    ++ (checkAndAdd b castleCalc pid s (s.add (-1) 2)).toList
    ++ (checkAndAdd b castleCalc pid s (s.add 1 (-2))).toList
    ++ (checkAndAdd b castleCalc pid s (s.add (-1) (-2))).toList
    ++ (checkAndAdd b castleCalc pid s (s.add 2 1)).toList
    ++ (checkAndAdd b castleCalc pid s (s.add 2 (-1))).toList
    ++ (checkAndAdd b castleCalc pid s (s.add (-2) 1)).toList
    ++ (checkAndAdd b castleCalc pid s (s.add (-2) (-1))).toList

/-- `King.checkAndAddKingSide`: requires `canCastleKing` and the two tiles at
file offsets +1, +2 to be present and empty (on an off-board tile the TS
non-null assertion would throw; modelled as generating no move), then pushes
the move to `add(2, 0)` flagged `isCastles`. -/
def checkAndAddKingSide (b : ChessBoard) (castleCalc : Bool) (pid : PieceId)
    (startingSquare : Square) : Option Move :=
  if ¬ (b.pieceGet pid).canCastleKing then none
  else if ¬ ([(1 : Int), 2].all fun f => b.tileGet (startingSquare.add f 0) = some none) then none
  else some (mkMove b castleCalc startingSquare (startingSquare.add 2 0) pid false false true false none)

/-- `King.checkAndAddQueenSide`: file offsets -1, -2, -3 must be empty; the
move goes to `add(-2, 0)`. -/
def checkAndAddQueenSide (b : ChessBoard) (castleCalc : Bool) (pid : PieceId)
    (startingSquare : Square) : Option Move :=
  if ¬ (b.pieceGet pid).canCastleQueen then none
  else if ¬ ([(-1 : Int), -2, -3].all fun f => b.tileGet (startingSquare.add f 0) = some none) then none
  else some (mkMove b castleCalc startingSquare (startingSquare.add (-2) 0) pid false false true false none)

/-- `King.possibleMoves`: the eight neighbour offsets in source order, then
kingside, then queenside. -/
def kingPossibleMoves (b : ChessBoard) (castleCalc : Bool) (pid : PieceId)
    (s : Square) : List Move :=
  (checkAndAdd b castleCalc pid s (s.add (-1) (-1))).toList
    ++ (checkAndAdd b castleCalc pid s (s.add (-1) 0)).toList
    ++ (checkAndAdd b castleCalc pid s (s.add (-1) 1)).toList
    ++ (checkAndAdd b castleCalc pid s (s.add 0 (-1))).toList
    ++ (checkAndAdd b castleCalc pid s (s.add 0 1)).toList
    ++ (checkAndAdd b castleCalc pid s (s.add 1 (-1))).toList
    ++ (checkAndAdd b castleCalc pid s (s.add 1 0)).toList
    ++ (checkAndAdd b castleCalc pid s (s.add 1 1)).toList
    ++ (checkAndAddKingSide b castleCalc pid s).toList
    ++ (checkAndAddQueenSide b castleCalc pid s).toList

/-- `piece.possibleMoves(board, startingSquare, /-checkCalculation-/ false,
castleCalc)`: dispatch on the class tag. -/
def possibleMoves (b : ChessBoard) (castleCalc : Bool) (pid : PieceId)
    (s : Square) : List Move :=
  match (b.pieceGet pid).kind with
  | .pawn => pawnPossibleMoves b castleCalc pid s
  | .knight => knightPossibleMoves b castleCalc pid s
  | .bishop => bishopPossibleMoves b castleCalc pid s
  | .rook => rookPossibleMoves b castleCalc pid s
  | .queen => queenPossibleMoves b castleCalc pid s
  | .king => kingPossibleMoves b castleCalc pid s

/-- Lines 1037-1040: move the piece onto the target tile and clear the
origin tile. -/
def makeMoveTiles (b : ChessBoard) (move : Move) : ChessBoard :=
  (b.tileSet move.targetSquare (some move.movePieceId)).tileSet move.startingSquare none

/-- Lines 1042-1045: a double step sets the moved pawn's flag. -/
def makeMoveDoubleStepSet (b : ChessBoard) (move : Move) : ChessBoard :=
  if move.isDoubleStep then b.pieceSet move.movePieceId (Piece.withDoubleStep true) else b

/-- Lines 1046-1049: clear `doubleStep` on the pawn of the previous move
(the history top), if that move was a double step. -/
def makeMoveClearPrev (b : ChessBoard) : ChessBoard :=
  match b.history.head? with
  | some lastMove =>
    if lastMove.isDoubleStep then b.pieceSet lastMove.movePieceId (Piece.withDoubleStep false)
    else b
  | none => b

/-- Lines 1050-1057: en passant removes the captured pawn from the square
behind the target (relative to the side to move). -/
def makeMoveEnPassant (b : ChessBoard) (move : Move) : ChessBoard :=
  if move.isEnPassant then
    b.tileSet
      (if b.turn = Color.white then move.targetSquare.add 0 (-1) else move.targetSquare.add 0 1)
      none
  else b

/-- Lines 1059-1065: a King mover updates the tracked king tile of the side
to move. -/
def makeMoveKingTrack (b : ChessBoard) (move : Move) : ChessBoard :=
  if (b.pieceGet move.movePieceId).kind.isKing then
    if b.turn = Color.white then { b with whiteKingSq := move.targetSquare }
    else { b with blackKingSq := move.targetSquare }
  else b

/-- Line 1067-1069: `cancelQueensideCastles` clears the queenside right on
`getKing(this.turn)`. -/
def makeMoveCancelQueen (b : ChessBoard) (move : Move) : ChessBoard :=
  if move.cancelQueensideCastles then b.setCanCastleQueen b.turn false else b

/-- Lines 1070-1073: `cancelKingsideCastles` clears the kingside right. -/
def makeMoveCancelKing (b : ChessBoard) (move : Move) : ChessBoard :=
  if move.cancelKingsideCastles then b.setCanCastleKing b.turn false else b

/-- Lines 1067-1073: both cancellation effects in statement order. -/
def makeMoveCancels (b : ChessBoard) (move : Move) : ChessBoard :=
  makeMoveCancelKing (makeMoveCancelQueen b move) move

/-- Lines 1075-1088: castling relocates the rook — target file "c" moves the
rook from -4 to -1 relative to the king's origin, any other target from +3
to +1. -/
def makeMoveCastleRook (b : ChessBoard) (move : Move) : ChessBoard :=
  if move.isCastles then
    if move.targetSquare.fileLetter = some "c" then
      (b.tileSet (move.startingSquare.add (-1) 0)
          ((b.tileGet (move.startingSquare.add (-4) 0)).getD none)).tileSet
        (move.startingSquare.add (-4) 0) none
    else
      (b.tileSet (move.startingSquare.add 1 0)
          ((b.tileGet (move.startingSquare.add 3 0)).getD none)).tileSet
        (move.startingSquare.add 3 0) none
  else b

/-- `ChessBoard.makeMove` (lines 1036-1092), as a pure state transformer
composing the steps above in the statement order of the source, then
flipping the turn and pushing the move onto the history. -/
def ChessBoard.makeMove (b : ChessBoard) (move : Move) : ChessBoard :=
  let bI := makeMoveCastleRook
    (makeMoveCancels
      (makeMoveKingTrack
        (makeMoveEnPassant
          (makeMoveClearPrev (makeMoveDoubleStepSet (makeMoveTiles b move) move)) move) move) move)
    move
  { bI with turn := bI.turn.other, history := move :: bI.history }

/-- Lines 1102-1112: the en-passant undo branch — restore the mover to its
origin, clear the target, put the captured pawn back behind the target
(`this.turn` here is still the side that did not make the move). -/
def undoEpTiles (b : ChessBoard) (move : Move) : ChessBoard :=
  ((b.tileSet move.startingSquare (some move.movePieceId)).tileSet move.targetSquare none).tileSet
    (if b.turn = Color.white then move.targetSquare.add 0 1 else move.targetSquare.add 0 (-1))
    move.capturePieceId

/-- Lines 1114-1117: the ordinary undo restores the mover and puts the
captured piece (or nothing) back on the target. -/
def undoOrdTiles (b : ChessBoard) (move : Move) : ChessBoard :=
  (b.tileSet move.startingSquare (some move.movePieceId)).tileSet move.targetSquare
    move.capturePieceId

/-- Lines 1118-1124: a King mover restores the tracked king tile — of the
turn-opposite color, because the turn has not been flipped back yet. -/
def undoKingTrack (b : ChessBoard) (move : Move) : ChessBoard :=
  if (b.pieceGet move.movePieceId).kind.isKing then
    if b.turn = Color.white then { b with blackKingSq := move.startingSquare }
    else { b with whiteKingSq := move.startingSquare }
  else b

/-- Lines 1126-1131: the cancellation flags restore rights on
`getKing(this.turn)` — again before the turn flip, hence on the king of the
side that did not make the move. -/
def undoCancelQueen (b : ChessBoard) (move : Move) : ChessBoard :=
  if move.cancelQueensideCastles then b.setCanCastleQueen b.turn true else b

/-- Lines 1129-1131: kingside right restored the same way. -/
def undoCancelKing (b : ChessBoard) (move : Move) : ChessBoard :=
  if move.cancelKingsideCastles then b.setCanCastleKing b.turn true else b

/-- Lines 1126-1131: both restorations in statement order. -/
def undoCancels (b : ChessBoard) (move : Move) : ChessBoard :=
  undoCancelKing (undoCancelQueen b move) move

/-- Lines 1133-1146: castling undo moves the rook back. -/
def undoCastleRook (b : ChessBoard) (move : Move) : ChessBoard :=
  if move.isCastles then
    if move.targetSquare.fileLetter = some "c" then
      (b.tileSet (move.startingSquare.add (-4) 0)
          ((b.tileGet (move.startingSquare.add (-1) 0)).getD none)).tileSet
        (move.startingSquare.add (-1) 0) none
    else
      (b.tileSet (move.startingSquare.add 3 0)
          ((b.tileGet (move.startingSquare.add 1 0)).getD none)).tileSet
        (move.startingSquare.add 1 0) none
  else b

/-- Lines 1149-1152: a double-step mover has its flag cleared again. -/
def undoDoubleStepClear (b : ChessBoard) (move : Move) : ChessBoard :=
  if move.isDoubleStep then b.pieceSet move.movePieceId (Piece.withDoubleStep false) else b

/-- Lines 1153-1156: the move now on top of the history (the one before the
undone move) gets its pawn's `doubleStep` flag restored if it was a double
step. -/
def undoRestorePrev (b : ChessBoard) : ChessBoard :=
  match b.history.head? with
  | some lastMove =>
    if lastMove.isDoubleStep then b.pieceSet lastMove.movePieceId (Piece.withDoubleStep true)
    else b
  | none => b

/-- `ChessBoard.undoMove` (lines 1101-1159). -/
def ChessBoard.undoMove (b : ChessBoard) (move : Move) : ChessBoard :=
  let b1 :=
    if move.isEnPassant then undoEpTiles b move
    else undoCastleRook (undoCancels (undoKingTrack (undoOrdTiles b move) move) move) move
  let b3 := undoRestorePrev (undoDoubleStepClear b1 move)
  { b3 with turn := b3.turn.other }

/-- `ChessBoard.undoLastMove`: pop the history (a no-op when empty), then
`undoMove` the popped move (which therefore sees the shortened history). -/
def ChessBoard.undoLastMove (b : ChessBoard) : ChessBoard :=
  match b.history with
  | [] => b
  | m :: rest => ({ b with history := rest }).undoMove m

/-- `ChessBoard.getAllPieceTiles`: occupied tiles in rank-major order. -/
def ChessBoard.getAllPieceTiles (b : ChessBoard) : List (Square × PieceId) :=
  ((List.range 8).map fun simpleRank =>
    (List.range 8).filterMap fun simpleFile =>
      match (b.tiles.getD simpleRank []).getD simpleFile none with
      | some pid => some (Square.chessify (Int.ofNat simpleFile) (Int.ofNat simpleRank), pid)
      | none => none).flatten

/-- The body of `getLegalMoves`' `filter` callback, iterated left to right:
tentatively apply, flip to the mover, ask `isInCheck`, flip back, undo; keep
the move when the mover's king was not attacked.  The board threads through
because the TS callback mutates `this`. -/
def filterIllegal (isInCheckFn : ChessBoard → Bool) (b : ChessBoard) :
    List Move → List Move × ChessBoard
  | [] => ([], b)
  | m :: ms =>
    let b1 := b.makeMove m
    let b2 := { b1 with turn := b1.turn.other }
    let ok := ! isInCheckFn b2
    let b3 := { b2 with turn := b2.turn.other }
    let b4 := b3.undoLastMove
    let rest := filterIllegal isInCheckFn b4 ms
    (if ok then m :: rest.1 else rest.1, rest.2)

/-- `ChessBoard.getLegalMoves(selectedTile, /-checkCalculation-/ false,
illegalCalculation, castleCalculation)`, identified by the tile's square.
On an empty tile the TS non-null assertion would throw; modelled as no
moves. -/
def ChessBoard.getLegalMoves (isInCheckFn : ChessBoard → Bool) (b : ChessBoard) (sq : Square)
    (illegalCalc castleCalc : Bool) : List Move × ChessBoard :=
  let moves :=
    match (b.tileGet sq).getD none with
    | some pid => possibleMoves b castleCalc pid sq
    | none => []
  if illegalCalc then filterIllegal isInCheckFn b moves else (moves, b)

/-- The `forEach` over the snapshot of own-piece tiles in
`getAllLegalMoves`, threading the board through successive
`getLegalMoves` calls. -/
def collectLegal (isInCheckFn : ChessBoard → Bool) (illegalCalc castleCalc : Bool) :
    List (Square × PieceId) → ChessBoard → List Move × ChessBoard
  | [], b => ([], b)
  | t :: ts, b =>
    let p := ChessBoard.getLegalMoves isInCheckFn b t.1 illegalCalc castleCalc
    let rest := collectLegal isInCheckFn illegalCalc castleCalc ts p.2
    (p.1 ++ rest.1, rest.2)

/-- `ChessBoard.getAllLegalMoves(/-checkCalculation-/ false, illegalCalc,
castleCalc)`: the piece-tile snapshot is taken and filtered by the side to
move before any trial mutation. -/
def ChessBoard.getAllLegalMoves (isInCheckFn : ChessBoard → Bool) (b : ChessBoard)
    (illegalCalc castleCalc : Bool) : List Move × ChessBoard :=
  collectLegal isInCheckFn illegalCalc castleCalc
    ((b.getAllPieceTiles).filter fun t => decide ((b.pieceGet t.2).pieceColor = b.turn)) b

/-- `ChessBoard.isInCheck` (lines 1227-1234): flip the turn, generate the
attacker's pseudo-legal moves (`checkCalculation = false`,
`illegalCalculation = false`, `castleCalculation` left at its default
`true`), and test for a capture of a King.  With `illegalCalculation =
false` no trial mutation happens, so the function is a pure predicate and
the two `changeTurn` calls cancel. -/
def ChessBoard.isInCheck (b : ChessBoard) : Bool :=
  (ChessBoard.getAllLegalMoves (fun _ => false) { b with turn := b.turn.other } false true).1.any
    fun m =>
      match m.capturePieceId with
      | some cp => (b.pieceGet cp).kind.isKing
      | none => false

/-- `ChessBoard.calculateCheckType` (lines 1236-1253): tentatively apply the
move, compute `isMate` from the legal replies (which mutates the board
through its make/undo trials — the board it leaves behind is threaded, not
assumed restored), `isCheck`, `noMat`, undo, then classify with
no-material first. -/
def ChessBoard.calculateCheckType (b : ChessBoard) (move : Move) : CheckType × ChessBoard :=
  let b1 := b.makeMove move
  let r := ChessBoard.getAllLegalMoves ChessBoard.isInCheck b1 true false
  let isMate := r.1.length = 0
  let b2 := r.2
  let isCheck := b2.isInCheck
  let noMat := ! (b2.getAllPieceTiles.any fun t => ! (b2.pieceGet t.2).kind.isKing)
  let b3 := b2.undoLastMove
  (if noMat then CheckType.nomaterial
   else if isCheck ∧ isMate then CheckType.checkmate
   else if isCheck ∧ ¬ isMate then CheckType.check
   else if ¬ isCheck ∧ isMate then CheckType.stalemate
   else CheckType.none, b3)

/-- The `Move` constructor with `checkCalculation = true`: the freshly built
move (checkType still unset, which `makeMove`/`undoMove` never read) is
classified by `calculateCheckType`, whose tentative make/undo leaves a board
state that is threaded to the caller. -/
def mkMoveChecked (b : ChessBoard) (castleCalc : Bool) (startingSquare targetSquare : Square)
    (movePieceId : PieceId) (isCapture isEnPassant isCastles isDoubleStep : Bool)
    (capturePieceId : Option PieceId) : Move × ChessBoard :=
  let m0 := mkMove b castleCalc startingSquare targetSquare movePieceId
    isCapture isEnPassant isCastles isDoubleStep capturePieceId
  let r := b.calculateCheckType m0
  ({ m0 with checkType := r.1 }, r.2)

/-- `Piece.checkAndAdd` with `checkCalculation = true`: each constructed move
runs the tentative classification, so the board evolves between
candidates. -/
def checkAndAddChecked (b : ChessBoard) (castleCalc : Bool) (pid : PieceId)
    (startingSquare targetSquare : Square) : Option Move × ChessBoard :=
  match b.tileGet targetSquare with
  | Option.none => (none, b)
  | some Option.none =>
    let r := mkMoveChecked b castleCalc startingSquare targetSquare pid false false false false none
    (some r.1, r.2)
  | some (some q) =>
    if (b.pieceGet q).pieceColor = (b.pieceGet pid).pieceColor then (none, b)
    else
      let r := mkMoveChecked b castleCalc startingSquare targetSquare pid true false false false (some q)
      (some r.1, r.2)

/-- `King.checkAndAddKingSide` with `checkCalculation = true`. -/
def checkAndAddKingSideChecked (b : ChessBoard) (castleCalc : Bool) (pid : PieceId)
    (startingSquare : Square) : Option Move × ChessBoard :=
  if ¬ (b.pieceGet pid).canCastleKing then (none, b)
  else if ¬ ([(1 : Int), 2].all fun f => b.tileGet (startingSquare.add f 0) = some none) then (none, b)
  else
    let r := mkMoveChecked b castleCalc startingSquare (startingSquare.add 2 0) pid false false true false none
    (some r.1, r.2)

/-- `King.checkAndAddQueenSide` with `checkCalculation = true`. -/
def checkAndAddQueenSideChecked (b : ChessBoard) (castleCalc : Bool) (pid : PieceId)
    (startingSquare : Square) : Option Move × ChessBoard :=
  if ¬ (b.pieceGet pid).canCastleQueen then (none, b)
  else if ¬ ([(-1 : Int), -2, -3].all fun f => b.tileGet (startingSquare.add f 0) = some none) then (none, b)
  else
    let r := mkMoveChecked b castleCalc startingSquare (startingSquare.add (-2) 0) pid false false true false none
    (some r.1, r.2)

/-- `King.possibleMoves` with `checkCalculation = true` (the TS default used
at the UI boundary): each candidate's construction classifies tentatively
and the resulting board state is threaded to the next candidate, in source
order, kingside and queenside castling last. -/
def kingPossibleMovesChecked (b : ChessBoard) (castleCalc : Bool) (pid : PieceId)
    (s : Square) : List Move × ChessBoard :=
  let r1 := checkAndAddChecked b castleCalc pid s (s.add (-1) (-1))
  let r2 := checkAndAddChecked r1.2 castleCalc pid s (s.add (-1) 0)
  let r3 := checkAndAddChecked r2.2 castleCalc pid s (s.add (-1) 1)
  let r4 := checkAndAddChecked r3.2 castleCalc pid s (s.add 0 (-1))
  let r5 := checkAndAddChecked r4.2 castleCalc pid s (s.add 0 1)
  let r6 := checkAndAddChecked r5.2 castleCalc pid s (s.add 1 (-1))
  let r7 := checkAndAddChecked r6.2 castleCalc pid s (s.add 1 0)
  let r8 := checkAndAddChecked r7.2 castleCalc pid s (s.add 1 1)
  let r9 := checkAndAddKingSideChecked r8.2 castleCalc pid s
  let r10 := checkAndAddQueenSideChecked r9.2 castleCalc pid s
  (r1.1.toList ++ r2.1.toList ++ r3.1.toList ++ r4.1.toList ++ r5.1.toList
    ++ r6.1.toList ++ r7.1.toList ++ r8.1.toList ++ r9.1.toList ++ r10.1.toList, r10.2)

/-- `Piece.getSimpleName` across the six variants. -/
def Piece.getSimpleName (p : Piece) : String :=
  match p.kind, p.pieceColor with
  | .pawn, .white => "P"
  | .pawn, .black => "p"
  | .knight, .white => "N"
  | .knight, .black => "n"
  | .bishop, .white => "B"
  | .bishop, .black => "b"
  | .rook, .white => "R"
  | .rook, .black => "r"
  | .queen, .white => "Q"
  | .queen, .black => "q"
  | .king, .white => "K"
  | .king, .black => "k"

/-- `Move.toString` (lines 51-65).  The board argument resolves the
`movePiece` object reference.  For castles the source compares the target
file against "a" (an `undefined` file compares unequal). -/
def Move.toStr (b : ChessBoard) (m : Move) : String :=
  if m.isCastles then
    if m.targetSquare.fileLetter = some "a" then "O-O-O" else "O-O"
  else
    (b.pieceGet m.movePieceId).getSimpleName
      ++ (if m.isCapture then "x" else "")
      ++ m.targetSquare.toStr
      ++ (if m.checkType = CheckType.check then "+"
          else if m.checkType = CheckType.checkmate then "#" else "")

/-- One character of the castling-availability section of the initial
position string. -/
inductive CastleSpec
  | q
  | k
  | Q
  | K
deriving DecidableEq, Repr

/-- `ChessBoard.createChessBoard` (lines 953-1019) over the already-split
sections of the position string: `placement` lists the 8 ranks in string
order (chess rank 8 first), each with 8 entries; `castling` is the sequence
of availability characters (empty for "-"); `epFile` is the numeric
en-passant file of the fourth section (`none` for "-").  Piece ids are
square indices `rank * 8 + file`; empty squares keep an inert dummy entry in
the store.  The tracked king tile is the last `K`/`k` of the string (the
source overwrites on duplicates); with no king of a color it would stay
`undefined` in TS, modelled as the invalid square.  The en-passant section
sets `doubleStep` on the occupant of rank index 4 (white to move) or 5
(black to move) at that file — on an empty tile the TS cast would throw;
modelled as a no-op. -/
def createChessBoard (placement : List (List (Option (PieceKind × Color))))
    (turn : Color) (castling : List CastleSpec) (epFile : Option Nat) : ChessBoard :=
  let pieceAt : Nat → Nat → Option (PieceKind × Color) := fun r f =>
    (placement.getD (7 - r) []).getD f none
  let tiles := (List.range 8).map fun r => (List.range 8).map fun f =>
    match pieceAt r f with
    | some _ => some (r * 8 + f)
    | none => (none : Option PieceId)
  let pieces := (List.range 64).map fun i =>
    match pieceAt (i / 8) (i % 8) with
    | some kc => (⟨kc.1, kc.2, false, false, false⟩ : Piece)
    | none => (⟨PieceKind.pawn, Color.white, false, false, false⟩ : Piece)
  let stringOrder := ((List.range 8).reverse.map fun r => (List.range 8).map fun f => (r, f)).flatten
  let findKing : Color → Square := fun c =>
    stringOrder.foldl
      (fun acc rf =>
        match pieceAt rf.1 rf.2 with
        | some kc =>
          if kc.1 = PieceKind.king ∧ kc.2 = c then
            Square.chessify (Int.ofNat rf.2) (Int.ofNat rf.1)
          else acc
        | none => acc)
      Square.invalid
  let b0 : ChessBoard :=
    { tiles := tiles, pieces := pieces, turn := turn,
      whiteKingSq := findKing Color.white, blackKingSq := findKing Color.black, history := [] }
  let b1 := castling.foldl
    (fun b ch =>
      match ch with
      | CastleSpec.q => b.setCanCastleQueen Color.black true
      | CastleSpec.k => b.setCanCastleKing Color.black true
      | CastleSpec.Q => b.setCanCastleQueen Color.white true
      | CastleSpec.K => b.setCanCastleKing Color.white true)
    b0
  match epFile with
  | none => b1
  | some f =>
    let r : Nat := if turn = Color.white then 4 else 5
    match (b1.tileGet (Square.chessify (Int.ofNat f) (Int.ofNat r))).getD none with
    | some pid => b1.pieceSet pid (Piece.withDoubleStep true)
    | none => b1

/-- Modelled from the spec's words for the check predicate ("some
pseudo-legal move of the opposing side", "generated without legality
filtering and without check calculation"): the move list the opposing side
generates, to be compared with the capture-based test `isInCheck`
performs on the same list. -/
def opposingPseudoLegalMoves (b : ChessBoard) : List Move :=
  (ChessBoard.getAllLegalMoves (fun _ => false) { b with turn := b.turn.other } false true).1

/-- Modelled from the amended claim C7: castles render "O-O-O" only when the
target file is "a" (which generated castles never have, queenside targets
file "c"), otherwise "O-O"; a non-castle renders the mover's letter —
uppercase white, lowercase black, with "P"/"p" for pawns, not omitted —
then "x" on captures, the destination square, and "+"/"#" for
check/checkmate. -/
def amendedMoveText (b : ChessBoard) (m : Move) : String :=
  if m.isCastles then
    match m.targetSquare.fileLetter with
    | some fl => if fl = "a" then "O-O-O" else "O-O"
    | none => "O-O"
  else
    (b.pieceGet m.movePieceId).getSimpleName
      ++ ((if m.isCapture then "x" else "")
        ++ (m.targetSquare.toStr
          ++ match m.checkType with
             | CheckType.check => "+"
             | CheckType.checkmate => "#"
             | _ => ""))

def emptyRow : List (Option (PieceKind × Color)) :=
  [none, none, none, none, none, none, none, none]

/-- White king e1 (kingside rights), white rook h1, black king e8, white to
move: the castling-eligible position used for C1, C3 and C6. -/
def cbKR : ChessBoard :=
  createChessBoard
    [[none, none, none, none, some (PieceKind.king, Color.black), none, none, none],
     emptyRow, emptyRow, emptyRow, emptyRow, emptyRow, emptyRow,
     [none, none, none, none, some (PieceKind.king, Color.white), none, none,
      some (PieceKind.rook, Color.white)]]
    Color.white [CastleSpec.K] none

/-- The rook move h1-h2 as built with `castleCalculation = true` (so it
carries both rights-cancellation flags). -/
def mRookH2 : Move :=
  mkMove cbKR true (Square.chessify 7 0) (Square.chessify 7 1) 7 false false false false none

/-- The kingside castling move e1-g1 as `checkAndAddKingSide` builds it. -/
def mCastleK : Move :=
  mkMove cbKR true (Square.chessify 4 0) (Square.chessify 6 0) 4 false false true false none

/-- White king e1 (queenside rights), white rook a1, white pawn e2, black
king e8, white to move: used for C7. -/
def cbQR : ChessBoard :=
  createChessBoard
    [[none, none, none, none, some (PieceKind.king, Color.black), none, none, none],
     emptyRow, emptyRow, emptyRow, emptyRow, emptyRow,
     [none, none, none, none, some (PieceKind.pawn, Color.white), none, none, none],
     [some (PieceKind.rook, Color.white), none, none, none,
      some (PieceKind.king, Color.white), none, none, none]]
    Color.white [CastleSpec.Q] none

/-- The queenside castling move e1-c1 as `checkAndAddQueenSide` builds it. -/
def mCastleQ : Move :=
  mkMove cbQR true (Square.chessify 4 0) (Square.chessify 2 0) 4 false false true false none

/-- The pawn push e2-e3, a non-castling move for the C7 counterexample. -/
def mPawnE3 : Move :=
  mkMove cbQR true (Square.chessify 4 1) (Square.chessify 4 2) 12 false false false false none

/-- Black pawn d4, white pawn e4 with `doubleStep = true` (white just played
the double step e2-e4), black to move: the en-passant condition of the spec
holds for the black pawn with diagonal target e3.  Used for C2. -/
def cbEP : ChessBoard :=
  (createChessBoard
    [[none, none, none, none, some (PieceKind.king, Color.black), none, none, none],
     emptyRow, emptyRow, emptyRow,
     [none, none, none, some (PieceKind.pawn, Color.black),
      some (PieceKind.pawn, Color.white), none, none, none],
     emptyRow, emptyRow,
     [none, none, none, none, some (PieceKind.king, Color.white), none, none, none]]
    Color.black [] none).pieceSet 28 (Piece.withDoubleStep true)

/-- The mirrored white-side position: white pawn d5, black pawn e5 with
`doubleStep = true`, white to move; the white en-passant branch fires. -/
def cbEPw : ChessBoard :=
  (createChessBoard
    [[none, none, none, none, some (PieceKind.king, Color.black), none, none, none],
     emptyRow, emptyRow,
     [none, none, none, some (PieceKind.pawn, Color.white),
      some (PieceKind.pawn, Color.black), none, none, none],
     emptyRow, emptyRow, emptyRow,
     [none, none, none, none, some (PieceKind.king, Color.white), none, none, none]]
    Color.white [] none).pieceSet 36 (Piece.withDoubleStep true)

/-- Kings only (`4k3/8/8/8/8/8/8/4K3 w - -`): used for the C5 witness. -/
def cbKings : ChessBoard :=
  createChessBoard
    [[none, none, none, none, some (PieceKind.king, Color.black), none, none, none],
     emptyRow, emptyRow, emptyRow, emptyRow, emptyRow, emptyRow,
     [none, none, none, none, some (PieceKind.king, Color.white), none, none, none]]
    Color.white [] none

/-- The king move e1-d1 on the kings-only board. -/
def mKingD1 : Move :=
  mkMove cbKings true (Square.chessify 4 0) (Square.chessify 3 0) 4 false false false false none

/-- White king e1, black rook e8, black king a8, white to move: white's king
is attacked along the e-file.  Used for the C4 witness. -/
def cbCheck : ChessBoard :=
  createChessBoard
    [[some (PieceKind.king, Color.black), none, none, none,
      some (PieceKind.rook, Color.black), none, none, none],
     emptyRow, emptyRow, emptyRow, emptyRow, emptyRow, emptyRow,
     [none, none, none, none, some (PieceKind.king, Color.white), none, none, none]]
    Color.white [] none

/-- The standard initial position with black's d-pawn already advanced to d5
by a double step, recorded through the en-passant section (file 3), white to
move.  Used for C9. -/
def cbEPStart : ChessBoard :=
  createChessBoard
    [[some (PieceKind.rook, Color.black), some (PieceKind.knight, Color.black),
      some (PieceKind.bishop, Color.black), some (PieceKind.queen, Color.black),
      some (PieceKind.king, Color.black), some (PieceKind.bishop, Color.black),
      some (PieceKind.knight, Color.black), some (PieceKind.rook, Color.black)],
     [some (PieceKind.pawn, Color.black), some (PieceKind.pawn, Color.black),
      some (PieceKind.pawn, Color.black), none,
      some (PieceKind.pawn, Color.black), some (PieceKind.pawn, Color.black),
      some (PieceKind.pawn, Color.black), some (PieceKind.pawn, Color.black)],
     emptyRow,
     [none, none, none, some (PieceKind.pawn, Color.black), none, none, none, none],
     emptyRow, emptyRow,
     [some (PieceKind.pawn, Color.white), some (PieceKind.pawn, Color.white),
      some (PieceKind.pawn, Color.white), some (PieceKind.pawn, Color.white),
      some (PieceKind.pawn, Color.white), some (PieceKind.pawn, Color.white),
      some (PieceKind.pawn, Color.white), some (PieceKind.pawn, Color.white)],
     [some (PieceKind.rook, Color.white), some (PieceKind.knight, Color.white),
      some (PieceKind.bishop, Color.white), some (PieceKind.queen, Color.white),
      some (PieceKind.king, Color.white), some (PieceKind.bishop, Color.white),
      some (PieceKind.knight, Color.white), some (PieceKind.rook, Color.white)]]
    Color.white [CastleSpec.K, CastleSpec.Q, CastleSpec.k, CastleSpec.q] (some 3)

/-- The knight move g1-f3, a non-double-step white reply. -/
def mKnightF3 : Move :=
  mkMove cbEPStart true (Square.chessify 6 0) (Square.chessify 5 2) 6 false false false false none

/-- Soundness facts every move produced by a `possibleMoves` generator
enjoys, relative to the board it was generated from and the generating
piece `pid`: the mover is `pid`, the rights-cancellation flags are the
constructor's, an ordinary capture's victim occupies the target (with the
opposite color), a non-capture's target tile is empty, an en-passant
target tile is empty and its victim had `doubleStep` set, and every
captured piece sits somewhere on the board. -/
def MoveSane (b : ChessBoard) (castleCalc : Bool) (pid : PieceId) (m : Move) : Prop :=
  m.movePieceId = pid ∧
  m.cancelKingsideCastles = (castleCalc && cancelsCastlesKingside b pid) ∧
  m.cancelQueensideCastles = (castleCalc && cancelsCastlesQueenside b pid) ∧
  (m.isEnPassant = false →
    (m.capturePieceId = none → b.tileGet m.targetSquare = some none) ∧
    (∀ cp, m.capturePieceId = some cp →
      b.tileGet m.targetSquare = some (some cp) ∧
      (b.pieceGet cp).pieceColor ≠ (b.pieceGet pid).pieceColor)) ∧
  (m.isEnPassant = true →
    b.tileGet m.targetSquare = some none ∧
    (∀ cp, m.capturePieceId = some cp → (b.pieceGet cp).doubleStep = true)) ∧
  (∀ cp, m.capturePieceId = some cp → ∃ sq, b.tileGet sq = some (some cp))

/-- A piece object currently referenced by some tile. -/
def OnBoard (b : ChessBoard) (pid : PieceId) : Prop :=
  ∃ sq, b.tileGet sq = some (some pid)

/-- Every piece on the board is a King — the situation `calculateCheckType`
classifies as the no-material draw. -/
def AllKingsOn (b : ChessBoard) : Prop :=
  ∀ pid, OnBoard b pid → (b.pieceGet pid).kind = PieceKind.king

/-- The generated white en-passant capture d5xe6 on `cbEPw` (mover pawn 35,
victim pawn 36 on e5). -/
def mEPw : Move :=
  mkMove cbEPw true (Square.chessify 3 4) (Square.chessify 4 5) 35 true true false false (some 36)

theorem listSetGetD {α : Type} (l : List α) (i j : Nat) (a d : α) :
    (l.set i a).getD j d = l.getD j d ∨ (j = i ∧ (l.set i a).getD j d = a) := by
  induction l generalizing i j with
  | nil => left; simp
  | cons x xs ih =>
    cases i with
    | zero =>
      cases j with
      | zero => right; exact ⟨rfl, rfl⟩
      | succ j => left; simp
    | succ i =>
      cases j with
      | zero => left; simp
      | succ j =>
        rcases ih i j with h | ⟨hji, h⟩
        · left; simpa using h
        · right; exact ⟨by omega, by simpa using h⟩

theorem optGetDSome {α : Type} {o : Option (Option α)} {x : α}
    (h : o.getD none = some x) : o = some (some x) := by
  cases o with
  | none => simp at h
  | some i => simpa using congrArg some h

theorem memAppendToList {m : Move} {xs : List Move} {o : Option Move}
    (h : m ∈ xs ++ o.toList) : m ∈ xs ∨ o = some m := by
  rcases List.mem_append.mp h with h | h
  · exact Or.inl h
  · cases o with
    | none => simp at h
    | some x => simp at h; exact Or.inr (by rw [h])

theorem isKing_iff {k : PieceKind} : k.isKing = true ↔ k = PieceKind.king := by
  cases k <;> simp [PieceKind.isKing]

theorem isPawn_iff {k : PieceKind} : k.isPawn = true ↔ k = PieceKind.pawn := by
  cases k <;> simp [PieceKind.isPawn]

theorem Color.eq_of_ne_other {c d : Color} (h : c ≠ d.other) : c = d := by
  cases c <;> cases d <;> simp_all [Color.other]

theorem tileGet_withTurn (b : ChessBoard) (t : Color) (s : Square) :
    ChessBoard.tileGet { b with turn := t } s = b.tileGet s := rfl

theorem pieceGet_withTurn (b : ChessBoard) (t : Color) (pid : PieceId) :
    ChessBoard.pieceGet { b with turn := t } pid = b.pieceGet pid := rfl

theorem pieceGet_tileSet (b : ChessBoard) (s : Square) (v : Option PieceId) (pid : PieceId) :
    (b.tileSet s v).pieceGet pid = b.pieceGet pid := by
  cases s <;> rfl

theorem tileGet_pieceSet (b : ChessBoard) (pid : PieceId) (f : Piece → Piece) (s : Square) :
    (b.pieceSet pid f).tileGet s = b.tileGet s := rfl

theorem tileGet_tileSet (b : ChessBoard) (s : Square) (v : Option PieceId) (s' : Square) :
    (b.tileSet s v).tileGet s' = b.tileGet s' ∨ (b.tileSet s v).tileGet s' = some v := by
  cases s with
  | invalid => left; rfl
  | valid f r =>
    cases s' with
    | invalid => left; rfl
    | valid f' r' =>
      show some _ = some _ ∨ some _ = some _
      rcases listSetGetD b.tiles r.val r'.val ((b.tiles.getD r.val []).set f.val v) [] with h | ⟨hrr, h⟩
      · left; simp only [ChessBoard.tileSet, ChessBoard.tileGet]
        rw [h]
      · rcases listSetGetD (b.tiles.getD r.val []) f.val f'.val v none with h2 | ⟨hff, h2⟩
        · left; simp only [ChessBoard.tileSet, ChessBoard.tileGet]
          rw [h, hrr, h2]
        · right; simp only [ChessBoard.tileSet, ChessBoard.tileGet]
          rw [h, h2]

theorem sane_mkMove_quiet {b : ChessBoard} {cc : Bool} {pid : PieceId} {s t : Square}
    (hb : b.tileGet t = some none) (cstl ds : Bool) :
    MoveSane b cc pid (mkMove b cc s t pid false false cstl ds none) := by
  refine ⟨rfl, rfl, rfl, ?_, ?_, ?_⟩
  · intro _
    exact ⟨fun _ => hb, fun cp hcp => by simp [mkMove] at hcp⟩
  · intro hep; simp [mkMove] at hep
  · intro cp hcp; simp [mkMove] at hcp

theorem sane_mkMove_capture {b : ChessBoard} {cc : Bool} {pid q : PieceId} {s t : Square}
    (hb : b.tileGet t = some (some q))
    (hc : (b.pieceGet q).pieceColor ≠ (b.pieceGet pid).pieceColor) :
    MoveSane b cc pid (mkMove b cc s t pid true false false false (some q)) := by
  refine ⟨rfl, rfl, rfl, ?_, ?_, ?_⟩
  · intro _
    refine ⟨fun hn => by simp [mkMove] at hn, fun cp hcp => ?_⟩
    have hq : q = cp := by simpa [mkMove] using hcp
    subst hq
    exact ⟨hb, hc⟩
  · intro hep; simp [mkMove] at hep
  · intro cp hcp
    have hq : q = cp := by simpa [mkMove] using hcp
    subst hq
    exact ⟨t, hb⟩

theorem sane_mkMove_ep {b : ChessBoard} {cc : Bool} {pid cp0 : PieceId} {s t sq0 : Square}
    (hb : b.tileGet t = some none)
    (hds : (b.pieceGet cp0).doubleStep = true) (hsq : b.tileGet sq0 = some (some cp0)) :
    MoveSane b cc pid (mkMove b cc s t pid true true false false (some cp0)) := by
  refine ⟨rfl, rfl, rfl, ?_, ?_, ?_⟩
  · intro hep; simp [mkMove] at hep
  · intro _
    refine ⟨hb, fun cp hcp => ?_⟩
    have hq : cp0 = cp := by simpa [mkMove] using hcp
    subst hq
    exact hds
  · intro cp hcp
    have hq : cp0 = cp := by simpa [mkMove] using hcp
    subst hq
    exact ⟨sq0, hsq⟩

theorem sane_checkAndAdd {b : ChessBoard} {cc : Bool} {pid : PieceId} {s t : Square} {m : Move}
    (h : checkAndAdd b cc pid s t = some m) : MoveSane b cc pid m := by
  unfold checkAndAdd at h
  split at h
  · cases h
  · next htg =>
    injection h with h
    subst h
    exact sane_mkMove_quiet htg false false
  · next q htg =>
    split at h
    · cases h
    · next hc =>
      injection h with h
      subst h
      exact sane_mkMove_capture htg hc

theorem sane_pawnCheckAndAdd {b : ChessBoard} {cc : Bool} {pid : PieceId} {s t : Square} {m : Move}
    (h : pawnCheckAndAdd b cc pid s t = some m) : MoveSane b cc pid m := by
  unfold pawnCheckAndAdd at h
  split at h
  · cases h
  · cases h
  · next htg =>
    injection h with h
    subst h
    exact sane_mkMove_quiet htg false _

theorem sane_checkAndAddDiagonal {b : ChessBoard} {cc : Bool} {pid : PieceId} {s t : Square}
    {m : Move} (h : checkAndAddDiagonal b cc pid s t = some m) : MoveSane b cc pid m := by
  unfold checkAndAddDiagonal at h
  split at h
  · cases h
  · next q htg =>
    split at h
    · cases h
    · next hc =>
      injection h with h
      subst h
      exact sane_mkMove_capture htg hc
  · next htg =>
    split at h
    · -- white branch
      split at h
      · cases h
      · split at h
        · cases h
        · next cp hcs =>
          split at h
          · cases h
          · split at h
            · next hd =>
              injection h with h
              subst h
              exact sane_mkMove_ep htg hd (optGetDSome hcs)
            · cases h
    · -- black branch
      split at h
      · cases h
      · split at h
        · cases h
        · next cp hcs =>
          split at h
          · cases h
          · split at h
            · next hd =>
              injection h with h
              subst h
              exact sane_mkMove_ep htg hd (optGetDSome hcs)
            · cases h

theorem sane_checkAndAddKingSide {b : ChessBoard} {cc : Bool} {pid : PieceId} {s : Square}
    {m : Move} (h : checkAndAddKingSide b cc pid s = some m) : MoveSane b cc pid m := by
  unfold checkAndAddKingSide at h
  split at h
  · cases h
  · split at h
    · cases h
    · next h2 =>
      injection h with h
      subst h
      have h2' := of_not_not h2
      simp only [List.all_cons, List.all_nil, Bool.and_true, Bool.and_eq_true,
        decide_eq_true_eq] at h2'
      exact sane_mkMove_quiet h2'.2 true false

theorem sane_checkAndAddQueenSide {b : ChessBoard} {cc : Bool} {pid : PieceId} {s : Square}
    {m : Move} (h : checkAndAddQueenSide b cc pid s = some m) : MoveSane b cc pid m := by
  unfold checkAndAddQueenSide at h
  split at h
  · cases h
  · split at h
    · cases h
    · next h2 =>
      injection h with h
      subst h
      have h2' := of_not_not h2
      simp only [List.all_cons, List.all_nil, Bool.and_true, Bool.and_eq_true,
        decide_eq_true_eq] at h2'
      exact sane_mkMove_quiet h2'.2.1 true false

theorem rayStep_mem {b : ChessBoard} {cc : Bool} {pid : PieceId} {s : Square} {df dr : Int}
    {d : Bool} {acc : List Move} {m : Move}
    (h : m ∈ (rayStep b cc pid s df dr d acc).1) :
    m ∈ acc ∨ checkAndAdd b cc pid s (s.add df dr) = some m := by
  unfold rayStep at h
  split at h
  · exact Or.inl h
  · split at h
    · exact Or.inl h
    · next m' heq =>
      rcases List.mem_append.mp h with h | h
      · exact Or.inl h
      · simp at h
        subst h
        exact Or.inr heq

theorem rayStep_sane {b : ChessBoard} {cc : Bool} {pid : PieceId} {s : Square} {df dr : Int}
    {d : Bool} {acc : List Move}
    (hacc : ∀ x ∈ acc, MoveSane b cc pid x) :
    ∀ m ∈ (rayStep b cc pid s df dr d acc).1, MoveSane b cc pid m := by
  intro m hm
  rcases rayStep_mem hm with h | h
  · exact hacc m h
  · exact sane_checkAndAdd h

theorem rookLoopAux_sane {b : ChessBoard} {cc : Bool} {pid : PieceId} {s : Square} :
    ∀ (n : Nat) (i : Int) (d1 d2 d3 d4 : Bool) (acc : List Move),
      (∀ x ∈ acc, MoveSane b cc pid x) →
      ∀ m ∈ rookLoopAux b cc pid s n i d1 d2 d3 d4 acc, MoveSane b cc pid m := by
  intro n
  induction n with
  | zero => intro i d1 d2 d3 d4 acc hacc m hm; exact hacc m hm
  | succ n ih =>
    intro i d1 d2 d3 d4 acc hacc m hm
    simp only [rookLoopAux] at hm
    exact ih _ _ _ _ _ _ (rayStep_sane (rayStep_sane (rayStep_sane (rayStep_sane hacc)))) m hm

theorem bishopLoopAux_sane {b : ChessBoard} {cc : Bool} {pid : PieceId} {s : Square} :
    ∀ (n : Nat) (i : Int) (d1 d2 d3 d4 : Bool) (acc : List Move),
      (∀ x ∈ acc, MoveSane b cc pid x) →
      ∀ m ∈ bishopLoopAux b cc pid s n i d1 d2 d3 d4 acc, MoveSane b cc pid m := by
  intro n
  induction n with
  | zero => intro i d1 d2 d3 d4 acc hacc m hm; exact hacc m hm
  | succ n ih =>
    intro i d1 d2 d3 d4 acc hacc m hm
    simp only [bishopLoopAux] at hm
    exact ih _ _ _ _ _ _ (rayStep_sane (rayStep_sane (rayStep_sane (rayStep_sane hacc)))) m hm

theorem queenLoopAux_sane {b : ChessBoard} {cc : Bool} {pid : PieceId} {s : Square} :
    ∀ (n : Nat) (i : Int) (d1 d2 d3 d4 d5 d6 d7 d8 : Bool) (acc : List Move),
      (∀ x ∈ acc, MoveSane b cc pid x) →
      ∀ m ∈ queenLoopAux b cc pid s n i d1 d2 d3 d4 d5 d6 d7 d8 acc, MoveSane b cc pid m := by
  intro n
  induction n with
  | zero => intro i d1 d2 d3 d4 d5 d6 d7 d8 acc hacc m hm; exact hacc m hm
  | succ n ih =>
    intro i d1 d2 d3 d4 d5 d6 d7 d8 acc hacc m hm
    simp only [queenLoopAux] at hm
    exact ih _ _ _ _ _ _ _ _ _ _
      (rayStep_sane (rayStep_sane (rayStep_sane (rayStep_sane
        (rayStep_sane (rayStep_sane (rayStep_sane (rayStep_sane hacc)))))))) m hm

theorem sane_rookMoves {b : ChessBoard} {cc : Bool} {pid : PieceId} {s : Square} :
    ∀ m ∈ rookPossibleMoves b cc pid s, MoveSane b cc pid m :=
  rookLoopAux_sane 7 1 false false false false [] (by intro x hx; cases hx)

theorem sane_bishopMoves {b : ChessBoard} {cc : Bool} {pid : PieceId} {s : Square} :
    ∀ m ∈ bishopPossibleMoves b cc pid s, MoveSane b cc pid m :=
  bishopLoopAux_sane 7 1 false false false false [] (by intro x hx; cases hx)

theorem sane_queenMoves {b : ChessBoard} {cc : Bool} {pid : PieceId} {s : Square} :
    ∀ m ∈ queenPossibleMoves b cc pid s, MoveSane b cc pid m :=
  queenLoopAux_sane 7 1 false false false false false false false false [] (by intro x hx; cases hx)

theorem sane_knightMoves {b : ChessBoard} {cc : Bool} {pid : PieceId} {s : Square} :
    ∀ m ∈ knightPossibleMoves b cc pid s, MoveSane b cc pid m := by
  intro m hm
  unfold knightPossibleMoves at hm
  rcases memAppendToList hm with hm | h
  case inr => exact sane_checkAndAdd h
  rcases memAppendToList hm with hm | h
  case inr => exact sane_checkAndAdd h
  rcases memAppendToList hm with hm | h
  case inr => exact sane_checkAndAdd h
  rcases memAppendToList hm with hm | h
  case inr => exact sane_checkAndAdd h
  rcases memAppendToList hm with hm | h
  case inr => exact sane_checkAndAdd h
  rcases memAppendToList hm with hm | h
  case inr => exact sane_checkAndAdd h
  rcases memAppendToList hm with hm | h
  case inr => exact sane_checkAndAdd h
  exact sane_checkAndAdd (Option.mem_def.mp (Option.mem_toList.mp hm))

theorem sane_kingMoves {b : ChessBoard} {cc : Bool} {pid : PieceId} {s : Square} :
    ∀ m ∈ kingPossibleMoves b cc pid s, MoveSane b cc pid m := by
  intro m hm
  unfold kingPossibleMoves at hm
  rcases memAppendToList hm with hm | h
  case inr => exact sane_checkAndAddQueenSide h
  rcases memAppendToList hm with hm | h
  case inr => exact sane_checkAndAddKingSide h
  rcases memAppendToList hm with hm | h
  case inr => exact sane_checkAndAdd h
  rcases memAppendToList hm with hm | h
  case inr => exact sane_checkAndAdd h
  rcases memAppendToList hm with hm | h
  case inr => exact sane_checkAndAdd h
  rcases memAppendToList hm with hm | h
  case inr => exact sane_checkAndAdd h
  rcases memAppendToList hm with hm | h
  case inr => exact sane_checkAndAdd h
  rcases memAppendToList hm with hm | h
  case inr => exact sane_checkAndAdd h
  rcases memAppendToList hm with hm | h
  case inr => exact sane_checkAndAdd h
  exact sane_checkAndAdd (Option.mem_def.mp (Option.mem_toList.mp hm))

theorem sane_pawnMoves {b : ChessBoard} {cc : Bool} {pid : PieceId} {s : Square} :
    ∀ m ∈ pawnPossibleMoves b cc pid s, MoveSane b cc pid m := by
  intro m hm
  unfold pawnPossibleMoves at hm
  split at hm <;>
  · rcases memAppendToList hm with hm | h
    case inr => exact sane_checkAndAddDiagonal h
    rcases memAppendToList hm with hm | h
    case inr => exact sane_checkAndAddDiagonal h
    split at hm
    · rcases memAppendToList hm with hm | h
      case inr => exact sane_pawnCheckAndAdd h
      exact sane_pawnCheckAndAdd (Option.mem_def.mp (Option.mem_toList.mp hm))
    · exact sane_pawnCheckAndAdd (Option.mem_def.mp (Option.mem_toList.mp hm))

theorem sane_possibleMoves {b : ChessBoard} {cc : Bool} {pid : PieceId} {s : Square} :
    ∀ m ∈ possibleMoves b cc pid s, MoveSane b cc pid m := by
  intro m hm
  unfold possibleMoves at hm
  split at hm
  · exact sane_pawnMoves m hm
  · exact sane_knightMoves m hm
  · exact sane_bishopMoves m hm
  · exact sane_rookMoves m hm
  · exact sane_queenMoves m hm
  · exact sane_kingMoves m hm

theorem chessifyNat (f r : Nat) (hf : f < 8) (hr : r < 8) :
    Square.chessify (Int.ofNat f) (Int.ofNat r) = Square.valid ⟨f, hf⟩ ⟨r, hr⟩ := by
  unfold Square.chessify
  simp only [Int.ofNat_eq_coe]
  rw [dif_pos (by omega)]
  simp [Fin.ext_iff]

theorem getAllPieceTiles_mem_tileGet {b : ChessBoard} {x : Square × PieceId}
    (h : x ∈ b.getAllPieceTiles) : b.tileGet x.1 = some (some x.2) := by
  unfold ChessBoard.getAllPieceTiles at h
  rw [List.mem_flatten] at h
  obtain ⟨l, hl, hx⟩ := h
  rw [List.mem_map] at hl
  obtain ⟨r, hr, rfl⟩ := hl
  rw [List.mem_range] at hr
  rw [List.mem_filterMap] at hx
  obtain ⟨f, hf, hfx⟩ := hx
  rw [List.mem_range] at hf
  cases hread : (b.tiles.getD r []).getD f none with
  | none => rw [hread] at hfx; cases hfx
  | some pid =>
    rw [hread] at hfx
    injection hfx with hfx
    subst hfx
    show b.tileGet (Square.chessify (Int.ofNat f) (Int.ofNat r)) = _
    rw [chessifyNat f r hf hr]
    show some ((b.tiles.getD r []).getD f none) = _
    rw [hread]

theorem tileGet_mem_getAllPieceTiles {b : ChessBoard} {f r : Fin 8} {pid : PieceId}
    (h : b.tileGet (Square.valid f r) = some (some pid)) :
    (Square.valid f r, pid) ∈ b.getAllPieceTiles := by
  unfold ChessBoard.getAllPieceTiles
  rw [List.mem_flatten]
  refine ⟨(List.range 8).filterMap fun simpleFile =>
    match (b.tiles.getD r.val []).getD simpleFile none with
    | some pid => some (Square.chessify (Int.ofNat simpleFile) (Int.ofNat r.val), pid)
    | none => none, ?_, ?_⟩
  · rw [List.mem_map]
    exact ⟨r.val, List.mem_range.mpr r.isLt, rfl⟩
  · rw [List.mem_filterMap]
    refine ⟨f.val, List.mem_range.mpr f.isLt, ?_⟩
    unfold ChessBoard.tileGet at h
    injection h with h
    simp only [h]
    rw [chessifyNat f.val r.val f.isLt r.isLt]

theorem getLegalMoves_false_eq (fn : ChessBoard → Bool) (b : ChessBoard) (sq : Square)
    (cc : Bool) :
    ChessBoard.getLegalMoves fn b sq false cc =
      ((match (b.tileGet sq).getD none with
        | some pid => possibleMoves b cc pid sq
        | none => []), b) := rfl

theorem collectLegal_false_snd (fn : ChessBoard → Bool) (cc : Bool)
    (ts : List (Square × PieceId)) (b : ChessBoard) :
    (collectLegal fn false cc ts b).2 = b := by
  induction ts generalizing b with
  | nil => rfl
  | cons t ts ih =>
    show (collectLegal fn false cc ts _).2 = b
    rw [ih]
    rfl

theorem collectLegal_false_mem {fn : ChessBoard → Bool} {cc : Bool}
    {ts : List (Square × PieceId)} {b : ChessBoard} {m : Move}
    (h : m ∈ (collectLegal fn false cc ts b).1) :
    ∃ t ∈ ts, m ∈ (ChessBoard.getLegalMoves fn b t.1 false cc).1 := by
  induction ts generalizing b with
  | nil => cases h
  | cons t ts ih =>
    rcases List.mem_append.mp h with h | h
    · exact ⟨t, List.mem_cons_self t ts, h⟩
    · have h' : m ∈ (collectLegal fn false cc ts b).1 := by
        have hsnd : (ChessBoard.getLegalMoves fn b t.1 false cc).2 = b := rfl
        simpa [hsnd] using h
      obtain ⟨t', ht', hm'⟩ := ih h'
      exact ⟨t', List.mem_cons_of_mem t ht', hm'⟩

theorem allPseudo_mem {b : ChessBoard} {cc : Bool} {m : Move}
    (h : m ∈ (ChessBoard.getAllLegalMoves (fun _ => false) b false cc).1) :
    ∃ sq pid, b.tileGet sq = some (some pid) ∧ (b.pieceGet pid).pieceColor = b.turn ∧
      m ∈ possibleMoves b cc pid sq := by
  unfold ChessBoard.getAllLegalMoves at h
  obtain ⟨t, ht, hm⟩ := collectLegal_false_mem h
  rw [List.mem_filter] at ht
  obtain ⟨htl, hcol⟩ := ht
  have hocc := getAllPieceTiles_mem_tileGet htl
  rw [getLegalMoves_false_eq] at hm
  rw [show (b.tileGet t.1).getD none = some t.2 by rw [hocc]; rfl] at hm
  exact ⟨t.1, t.2, hocc, of_decide_eq_true hcol, hm⟩

theorem pieceGet_doubleStep_pawn {b : ChessBoard} {cp : PieceId}
    (hds : ∀ p ∈ b.pieces, p.doubleStep = true → p.kind = PieceKind.pawn)
    (h : (b.pieceGet cp).doubleStep = true) : (b.pieceGet cp).kind = PieceKind.pawn := by
  unfold ChessBoard.pieceGet at *
  rw [List.getD_eq_getElem?_getD] at h ⊢
  cases hx : b.pieces[cp]? with
  | none => rfl
  | some p =>
    rw [hx] at h
    exact hds p (List.getElem?_mem hx) h

/-- Claim C4: `is_in_check` — which tests whether any pseudo-legal move of
the side opposing the side to move captures a King object — agrees with the
spec's formulation "some pseudo-legal move of the opposing side targets the
square currently holding the king", under the well-formedness facts that
`kingSq` holds the side to move's unique king and that only pawns carry the
`doubleStep` flag. -/
theorem isInCheck_iff_attack (b : ChessBoard) (kingSq : Square) (kid : PieceId)
    (hK : b.tileGet kingSq = some (some kid))
    (hkind : (b.pieceGet kid).kind = PieceKind.king)
    (_hcol : (b.pieceGet kid).pieceColor = b.turn)
    (huniq : ∀ t ∈ b.getAllPieceTiles, (b.pieceGet t.2).kind = PieceKind.king →
        (b.pieceGet t.2).pieceColor = b.turn → t.1 = kingSq)
    (hds : ∀ p ∈ b.pieces, p.doubleStep = true → p.kind = PieceKind.pawn) :
    b.isInCheck = true ↔ ∃ m ∈ opposingPseudoLegalMoves b, m.targetSquare = kingSq := by
  have hK' : ChessBoard.tileGet { b with turn := b.turn.other } kingSq = some (some kid) := hK
  unfold ChessBoard.isInCheck opposingPseudoLegalMoves
  rw [List.any_eq_true]
  constructor
  · rintro ⟨m, hm, hp⟩
    refine ⟨m, hm, ?_⟩
    obtain ⟨sq, pid, hocc, hc, hmem⟩ := allPseudo_mem hm
    obtain ⟨hmv, _, _, hord, hep, _⟩ := sane_possibleMoves m hmem
    cases hcap : m.capturePieceId with
    | none => simp [hcap] at hp
    | some cp =>
      simp only [hcap] at hp
      have hkcp : (b.pieceGet cp).kind = PieceKind.king := isKing_iff.mp hp
      cases hepv : m.isEnPassant with
      | true =>
        have hds2 : (b.pieceGet cp).doubleStep = true := (hep hepv).2 cp hcap
        have hpawn := pieceGet_doubleStep_pawn hds hds2
        rw [hkcp] at hpawn
        cases hpawn
      | false =>
        obtain ⟨htile, hne⟩ := (hord hepv).2 cp hcap
        have hcpcol : (b.pieceGet cp).pieceColor = b.turn := by
          apply Color.eq_of_ne_other
          intro hcontra
          apply hne
          show (b.pieceGet cp).pieceColor = (b.pieceGet pid).pieceColor
          rw [hcontra]
          exact (show (b.pieceGet pid).pieceColor = b.turn.other from hc).symm
        cases hts : m.targetSquare with
        | invalid =>
          rw [hts] at htile
          have : (none : Option (Option PieceId)) = some (some cp) := htile
          cases this
        | valid f r =>
          rw [hts] at htile
          have htile' : b.tileGet (Square.valid f r) = some (some cp) := htile
          have hmem2 := tileGet_mem_getAllPieceTiles htile'
          exact huniq (Square.valid f r, cp) hmem2 hkcp hcpcol
  · rintro ⟨m, hm, htgt⟩
    refine ⟨m, hm, ?_⟩
    obtain ⟨sq, pid, hocc, hc, hmem⟩ := allPseudo_mem hm
    obtain ⟨hmv, _, _, hord, hep, _⟩ := sane_possibleMoves m hmem
    cases hepv : m.isEnPassant with
    | true =>
      have hempty := (hep hepv).1
      rw [htgt, hK'] at hempty
      cases hempty
    | false =>
      cases hcap : m.capturePieceId with
      | none =>
        have hempty := (hord hepv).1 hcap
        rw [htgt, hK'] at hempty
        cases hempty
      | some cp =>
        obtain ⟨htile, _⟩ := (hord hepv).2 cp hcap
        rw [htgt, hK'] at htile
        injection htile with htile
        injection htile with htile
        simp only [hcap]
        rw [← htile, hkind]
        rfl

theorem isInCheck_iff_attack_witness :
    (cbCheck.tileGet (Square.chessify 4 0) = some (some 4) ∧
      (cbCheck.pieceGet 4).kind = PieceKind.king ∧
      (cbCheck.pieceGet 4).pieceColor = cbCheck.turn ∧
      (∀ t ∈ cbCheck.getAllPieceTiles, (cbCheck.pieceGet t.2).kind = PieceKind.king →
        (cbCheck.pieceGet t.2).pieceColor = cbCheck.turn → t.1 = Square.chessify 4 0) ∧
      (∀ p ∈ cbCheck.pieces, p.doubleStep = true → p.kind = PieceKind.pawn)) ∧
    (cbCheck.isInCheck = true ↔
      ∃ m ∈ opposingPseudoLegalMoves cbCheck, m.targetSquare = Square.chessify 4 0) :=
  ⟨⟨by decide, by decide, by decide, by decide, by decide⟩,
    isInCheck_iff_attack cbCheck (Square.chessify 4 0) 4
      (by decide) (by decide) (by decide) (by decide) (by decide)⟩

theorem isRook_iff {k : PieceKind} : k.isRook = true ↔ k = PieceKind.rook := by
  cases k <;> simp [PieceKind.isRook]

/-- Claim C8: a `Move`'s rights-cancellation flags equal `castle_calc` AND
(the moving piece is a King or a Rook — any rook); in particular both are
false when `castle_calc` is false.  Stated for the constructor on arbitrary
inputs and for every generated move of every piece. -/
theorem move_cancel_flags (b : ChessBoard) (castleCalc : Bool) (pid : PieceId) (sq : Square) :
    (∀ (s t : Square) (ic ie ica ids : Bool) (cap : Option PieceId),
      (mkMove b castleCalc s t pid ic ie ica ids cap).cancelKingsideCastles
          = (castleCalc && ((b.pieceGet pid).kind.isKing || (b.pieceGet pid).kind.isRook)) ∧
      (mkMove b castleCalc s t pid ic ie ica ids cap).cancelQueensideCastles
          = (castleCalc && ((b.pieceGet pid).kind.isKing || (b.pieceGet pid).kind.isRook))) ∧
    (∀ m ∈ possibleMoves b castleCalc pid sq,
      m.cancelKingsideCastles
          = (castleCalc && ((b.pieceGet pid).kind.isKing || (b.pieceGet pid).kind.isRook)) ∧
      m.cancelQueensideCastles
          = (castleCalc && ((b.pieceGet pid).kind.isKing || (b.pieceGet pid).kind.isRook))) := by
  constructor
  · intro s t ic ie ica ids cap
    exact ⟨rfl, rfl⟩
  · intro m hm
    obtain ⟨_, h1, h2, _, _, _⟩ := sane_possibleMoves m hm
    exact ⟨h1, h2⟩

theorem move_cancel_flags_witness :
    mRookH2 ∈ possibleMoves cbKR true 7 (Square.chessify 7 0) ∧
    (mRookH2.cancelKingsideCastles
        = (true && ((cbKR.pieceGet 7).kind.isKing || (cbKR.pieceGet 7).kind.isRook)) ∧
      mRookH2.cancelQueensideCastles
        = (true && ((cbKR.pieceGet 7).kind.isKing || (cbKR.pieceGet 7).kind.isRook))) :=
  ⟨by decide, (move_cancel_flags cbKR true 7 (Square.chessify 7 0)).2 mRookH2 (by decide)⟩

/-- Claim C10: `Square.add` on the invalid sentinel treats it as the
coordinates (-1, -1), so the sentinel is not absorbing — `add 1 1` lands on
the valid square a1. -/
theorem add_on_invalid_sentinel :
    Square.simplify Square.invalid = (-1, -1) ∧
    (∀ df dr : Int, Square.add Square.invalid df dr = Square.chessify (-1 + df) (-1 + dr)) ∧
    Square.add Square.invalid 1 1 = Square.valid 0 0 ∧
    (Square.add Square.invalid 1 1).isValid = true :=
  ⟨rfl, fun _ _ => rfl, by decide, by decide⟩

/-- Claim C7, amended: `Move.toString` renders "O-O-O" only for a castle
whose target file is "a" (generated castles target files "c"/"g", so both
wings render "O-O"), and renders non-castles as the mover's letter —
including "P"/"p" for pawns — then "x" on capture, the destination, and the
check suffix. -/
theorem toStr_eq_amendedText (b : ChessBoard) (m : Move) :
    Move.toStr b m = amendedMoveText b m := by
  unfold Move.toStr amendedMoveText
  split
  · cases hfl : m.targetSquare.fileLetter with
    | none => simp [hfl]
    | some fl =>
      by_cases hfa : fl = "a" <;> simp [hfl, hfa]
  · cases hct : m.checkType <;> simp [hct, String.append_assoc]

/-- Claim C7 counterexample: the generated queenside castle (target c1)
renders "O-O", not "O-O-O", and the pawn push e2-e3 renders "Pe3", with the
pawn letter not omitted. -/
theorem queenside_castle_renders_OO :
    (checkAndAddQueenSide cbQR true 4 (Square.chessify 4 0) = some mCastleQ) ∧
    mCastleQ.isCastles = true ∧
    mCastleQ.targetSquare.fileLetter = some "c" ∧
    Move.toStr cbQR mCastleQ = "O-O" ∧
    "O-O" ≠ "O-O-O" ∧
    mPawnE3.isCastles = false ∧
    (cbQR.pieceGet mPawnE3.movePieceId).kind = PieceKind.pawn ∧
    Move.toStr cbQR mPawnE3 = "Pe3" ∧
    "Pe3" ≠ "e3" := by decide

/-- Claim C1 (code bug): the rook move h1-h2 (built with `castle_calc =
true`, and a member of the filtered legal-move list) makes then undoes, yet
the board differs from the original: `undoMove` restores the castling
rights on `getKing(this.turn)` after the turn was already flipped, so
white's cleared kingside right stays cleared and black's king gains
rights it never had. -/
theorem make_undo_not_roundtrip :
    mRookH2 ∈ (ChessBoard.getLegalMoves ChessBoard.isInCheck cbKR (Square.chessify 7 0) true true).1 ∧
    (cbKR.pieceGet 4).canCastleKing = true ∧
    (cbKR.pieceGet 60).canCastleKing = false ∧
    (((cbKR.makeMove mRookH2).undoLastMove).pieceGet 4).canCastleKing = false ∧
    (((cbKR.makeMove mRookH2).undoLastMove).pieceGet 60).canCastleKing = true ∧
    (cbKR.makeMove mRookH2).undoLastMove ≠ cbKR := by decide

/-- Claim C3 (code bug): `calculateCheckType` on the same rook move always
runs its undo, but returns with a board state different from the input —
the castling rights end up on the wrong king. -/
theorem classify_corrupts_board :
    ((cbKR.calculateCheckType mRookH2).2.pieceGet 4).canCastleKing = false ∧
    ((cbKR.calculateCheckType mRookH2).2.pieceGet 60).canCastleKing = true ∧
    (cbKR.pieceGet 4).canCastleKing = true ∧
    (cbKR.pieceGet 60).canCastleKing = false ∧
    (cbKR.calculateCheckType mRookH2).2 ≠ cbKR := by decide

/-- Claim C2 (code bug): on `cbEP` the en-passant condition of the spec
holds for the black pawn d4 (attacker on chess rank 4, empty diagonal
target e3, adjacent white pawn e4 with `doubleStep = true`), yet black's
generator yields no en-passant move; the mirrored white position `cbEPw`
does generate d5xe6, and applying it removes the victim from e5 — the
square behind the target — while the destination e6 receives the mover. -/
theorem black_en_passant_missing :
    ((cbEP.pieceGet 27).kind = PieceKind.pawn ∧
      (cbEP.pieceGet 27).pieceColor = Color.black ∧
      (Square.chessify 3 3).rankChess = some 4 ∧
      cbEP.tileGet (Square.chessify 4 2) = some none ∧
      cbEP.tileGet (Square.chessify 4 3) = some (some 28) ∧
      (cbEP.pieceGet 28).kind = PieceKind.pawn ∧
      (cbEP.pieceGet 28).pieceColor = Color.white ∧
      (cbEP.pieceGet 28).doubleStep = true) ∧
    ((possibleMoves cbEP true 27 (Square.chessify 3 3)).all fun m => ! m.isEnPassant) = true ∧
    mEPw ∈ possibleMoves cbEPw true 35 (Square.chessify 3 4) ∧
    mEPw.isEnPassant = true ∧
    (cbEPw.makeMove mEPw).tileGet (Square.chessify 4 4) = some none ∧
    (cbEPw.makeMove mEPw).tileGet (Square.chessify 4 5) = some (some 35) := by decide

set_option maxRecDepth 4000 in
/-- Claim C6 (code bug): on `cbKR` the kingside-castling preconditions hold,
and with `check_calculation = false` the castle move is generated and its
application relocates the rook h1 to f1 beside the king on g1; but under
the TS defaults (`check_calculation = true`, `castle_calculation = true`),
constructing the earlier ordinary king moves tentatively classifies them,
and the faulty undo strips the king's rights, so no castle move appears. -/
theorem castle_not_generated_under_defaults :
    ((cbKR.pieceGet 4).canCastleKing = true ∧
      cbKR.tileGet (Square.chessify 5 0) = some none ∧
      cbKR.tileGet (Square.chessify 6 0) = some none) ∧
    ((kingPossibleMovesChecked cbKR true 4 (Square.chessify 4 0)).1.all
      fun m => ! m.isCastles) = true ∧
    (((kingPossibleMovesChecked cbKR true 4 (Square.chessify 4 0)).2.pieceGet 4).canCastleKing
      = false) ∧
    mCastleK ∈ kingPossibleMoves cbKR true 4 (Square.chessify 4 0) ∧
    mCastleK.isCastles = true ∧
    ((cbKR.makeMove mCastleK).tileGet (Square.chessify 6 0) = some (some 4) ∧
      (cbKR.makeMove mCastleK).tileGet (Square.chessify 5 0) = some (some 7) ∧
      (cbKR.makeMove mCastleK).tileGet (Square.chessify 7 0) = some none) := by decide

set_option maxRecDepth 4000 in
/-- Claim C9 (code bug): constructing the board from an initial position
whose en-passant section flags the black d5 pawn, then applying the
non-double-step legal reply Ng1-f3, leaves that pawn's `doubleStep` still
true — `makeMove` clears the flag only through the history top, which is
empty for a constructor-set flag. -/
theorem constructor_double_step_persists :
    ((cbEPStart.pieceGet 35).kind = PieceKind.pawn ∧
      (cbEPStart.pieceGet 35).pieceColor = Color.black ∧
      (cbEPStart.pieceGet 35).doubleStep = true) ∧
    mKnightF3.isDoubleStep = false ∧
    mKnightF3.movePieceId ≠ 35 ∧
    mKnightF3 ∈ (ChessBoard.getLegalMoves ChessBoard.isInCheck cbEPStart (Square.chessify 6 0) true true).1 ∧
    ((cbEPStart.makeMove mKnightF3).pieceGet 35).doubleStep = true := by decide

theorem pieceGet_kind_pieceSet {b : ChessBoard} {pid : PieceId} {f : Piece → Piece}
    (hf : ∀ p, (f p).kind = p.kind) (q : PieceId) :
    ((b.pieceSet pid f).pieceGet q).kind = (b.pieceGet q).kind := by
  show ((b.pieces.set pid (f (b.pieceGet pid))).getD q
      ⟨PieceKind.pawn, Color.white, false, false, false⟩).kind
    = ((b.pieces.getD q ⟨PieceKind.pawn, Color.white, false, false, false⟩).kind)
  rcases listSetGetD b.pieces pid q (f (b.pieceGet pid))
      ⟨PieceKind.pawn, Color.white, false, false, false⟩ with he | ⟨hqp, he⟩
  · rw [he]
  · rw [he, hf]
    subst hqp
    rfl

theorem pieceGet_color_pieceSet {b : ChessBoard} {pid : PieceId} {f : Piece → Piece}
    (hf : ∀ p, (f p).pieceColor = p.pieceColor) (q : PieceId) :
    ((b.pieceSet pid f).pieceGet q).pieceColor = (b.pieceGet q).pieceColor := by
  show ((b.pieces.set pid (f (b.pieceGet pid))).getD q
      ⟨PieceKind.pawn, Color.white, false, false, false⟩).pieceColor
    = ((b.pieces.getD q ⟨PieceKind.pawn, Color.white, false, false, false⟩).pieceColor)
  rcases listSetGetD b.pieces pid q (f (b.pieceGet pid))
      ⟨PieceKind.pawn, Color.white, false, false, false⟩ with he | ⟨hqp, he⟩
  · rw [he]
  · rw [he, hf]
    subst hqp
    rfl

theorem kind_setCanCastleKing (b : ChessBoard) (c : Color) (v : Bool) (q : PieceId) :
    ((b.setCanCastleKing c v).pieceGet q).kind = (b.pieceGet q).kind := by
  unfold ChessBoard.setCanCastleKing
  cases b.getKingId c with
  | none => rfl
  | some kid =>
    show ((b.pieceSet kid (Piece.withCanCastleKing v)).pieceGet q).kind = _
    exact pieceGet_kind_pieceSet (f := Piece.withCanCastleKing v) (fun p => rfl) q

theorem kind_setCanCastleQueen (b : ChessBoard) (c : Color) (v : Bool) (q : PieceId) :
    ((b.setCanCastleQueen c v).pieceGet q).kind = (b.pieceGet q).kind := by
  unfold ChessBoard.setCanCastleQueen
  cases b.getKingId c with
  | none => rfl
  | some kid =>
    show ((b.pieceSet kid (Piece.withCanCastleQueen v)).pieceGet q).kind = _
    exact pieceGet_kind_pieceSet (f := Piece.withCanCastleQueen v) (fun p => rfl) q

theorem kind_makeMove (b : ChessBoard) (m : Move) (q : PieceId) :
    ((b.makeMove m).pieceGet q).kind = (b.pieceGet q).kind := by
  unfold ChessBoard.makeMove
  show ((makeMoveCastleRook _ m).pieceGet q).kind = _
  unfold makeMoveCastleRook
  have hc : ∀ b' : ChessBoard, ((makeMoveCancels b' m).pieceGet q).kind = (b'.pieceGet q).kind := by
    intro b'
    unfold makeMoveCancels makeMoveCancelKing makeMoveCancelQueen
    split <;> split <;>
      simp only [kind_setCanCastleKing, kind_setCanCastleQueen]
  have hk : ∀ b' : ChessBoard, ((makeMoveKingTrack b' m).pieceGet q).kind = (b'.pieceGet q).kind := by
    intro b'
    unfold makeMoveKingTrack
    split
    · split <;> rfl
    · rfl
  have he : ∀ b' : ChessBoard, ((makeMoveEnPassant b' m).pieceGet q).kind = (b'.pieceGet q).kind := by
    intro b'
    unfold makeMoveEnPassant
    split
    · rw [pieceGet_tileSet]
    · rfl
  have hp : ∀ b' : ChessBoard, ((makeMoveClearPrev b').pieceGet q).kind = (b'.pieceGet q).kind := by
    intro b'
    unfold makeMoveClearPrev
    split
    · split
      · exact pieceGet_kind_pieceSet (f := Piece.withDoubleStep false) (fun p => rfl) q
      · rfl
    · rfl
  have hd : ∀ b' : ChessBoard, ((makeMoveDoubleStepSet b' m).pieceGet q).kind = (b'.pieceGet q).kind := by
    intro b'
    unfold makeMoveDoubleStepSet
    split
    · exact pieceGet_kind_pieceSet (f := Piece.withDoubleStep true) (fun p => rfl) q
    · rfl
  have ht : ∀ b' : ChessBoard, ((makeMoveTiles b' m).pieceGet q).kind = (b'.pieceGet q).kind := by
    intro b'
    unfold makeMoveTiles
    rw [pieceGet_tileSet, pieceGet_tileSet]
  split
  · split <;> rw [pieceGet_tileSet, pieceGet_tileSet, hc, hk, he, hp, hd, ht]
  · rw [hc, hk, he, hp, hd, ht]

theorem kind_undoMove (b : ChessBoard) (m : Move) (q : PieceId) :
    ((b.undoMove m).pieceGet q).kind = (b.pieceGet q).kind := by
  unfold ChessBoard.undoMove
  show ((undoRestorePrev _).pieceGet q).kind = _
  have hr : ∀ b' : ChessBoard, ((undoRestorePrev b').pieceGet q).kind = (b'.pieceGet q).kind := by
    intro b'
    unfold undoRestorePrev
    split
    · split
      · exact pieceGet_kind_pieceSet (f := Piece.withDoubleStep true) (fun p => rfl) q
      · rfl
    · rfl
  have hd : ∀ b' : ChessBoard, ((undoDoubleStepClear b' m).pieceGet q).kind = (b'.pieceGet q).kind := by
    intro b'
    unfold undoDoubleStepClear
    split
    · exact pieceGet_kind_pieceSet (f := Piece.withDoubleStep false) (fun p => rfl) q
    · rfl
  have hcr : ∀ b' : ChessBoard, ((undoCastleRook b' m).pieceGet q).kind = (b'.pieceGet q).kind := by
    intro b'
    unfold undoCastleRook
    split
    · split <;> rw [pieceGet_tileSet, pieceGet_tileSet]
    · rfl
  have hcn : ∀ b' : ChessBoard, ((undoCancels b' m).pieceGet q).kind = (b'.pieceGet q).kind := by
    intro b'
    unfold undoCancels undoCancelKing undoCancelQueen
    split <;> split <;>
      simp only [kind_setCanCastleKing, kind_setCanCastleQueen]
  have hkt : ∀ b' : ChessBoard, ((undoKingTrack b' m).pieceGet q).kind = (b'.pieceGet q).kind := by
    intro b'
    unfold undoKingTrack
    split
    · split <;> rfl
    · rfl
  have hot : ∀ b' : ChessBoard, ((undoOrdTiles b' m).pieceGet q).kind = (b'.pieceGet q).kind := by
    intro b'
    unfold undoOrdTiles
    rw [pieceGet_tileSet, pieceGet_tileSet]
  have het : ∀ b' : ChessBoard, ((undoEpTiles b' m).pieceGet q).kind = (b'.pieceGet q).kind := by
    intro b'
    unfold undoEpTiles
    rw [pieceGet_tileSet, pieceGet_tileSet, pieceGet_tileSet]
  rw [hr, hd]
  split
  · rw [het]
  · rw [hcr, hcn, hkt, hot]

theorem kind_undoLastMove (b : ChessBoard) (q : PieceId) :
    ((b.undoLastMove).pieceGet q).kind = (b.pieceGet q).kind := by
  unfold ChessBoard.undoLastMove
  split
  · rfl
  · rw [kind_undoMove]
    rfl

theorem allKingsOn_tileSet_none {b : ChessBoard} (h : AllKingsOn b) (s : Square) :
    AllKingsOn (b.tileSet s none) := by
  rintro pid ⟨sq, hsq⟩
  rw [pieceGet_tileSet]
  rcases tileGet_tileSet b s none sq with he | he
  · rw [he] at hsq
    exact h pid ⟨sq, hsq⟩
  · rw [he] at hsq
    cases hsq

theorem allKingsOn_tileSet_some {b : ChessBoard} {q : PieceId} (h : AllKingsOn b)
    (hk : (b.pieceGet q).kind = PieceKind.king) (s : Square) :
    AllKingsOn (b.tileSet s (some q)) := by
  rintro pid ⟨sq, hsq⟩
  rw [pieceGet_tileSet]
  rcases tileGet_tileSet b s (some q) sq with he | he
  · rw [he] at hsq
    exact h pid ⟨sq, hsq⟩
  · rw [he] at hsq
    injection hsq with hsq
    injection hsq with hsq
    rw [← hsq]
    exact hk

theorem allKingsOn_tileSet_opt {b : ChessBoard} {v : Option PieceId} (h : AllKingsOn b)
    (hv : ∀ q, v = some q → (b.pieceGet q).kind = PieceKind.king) (s : Square) :
    AllKingsOn (b.tileSet s v) := by
  cases v with
  | none => exact allKingsOn_tileSet_none h s
  | some q => exact allKingsOn_tileSet_some h (hv q rfl) s

theorem allKingsOn_tileSet_src {b : ChessBoard} (h : AllKingsOn b) (s s' : Square) :
    AllKingsOn (b.tileSet s ((b.tileGet s').getD none)) := by
  apply allKingsOn_tileSet_opt h
  intro q hq
  exact h q ⟨s', optGetDSome hq⟩

theorem allKingsOn_pieceSet {b : ChessBoard} {pid : PieceId} {f : Piece → Piece}
    (h : AllKingsOn b) (hf : ∀ p, (f p).kind = p.kind) :
    AllKingsOn (b.pieceSet pid f) := by
  rintro q ⟨sq, hsq⟩
  rw [pieceGet_kind_pieceSet hf]
  exact h q ⟨sq, hsq⟩

theorem allKingsOn_setCanCastleKing {b : ChessBoard} (h : AllKingsOn b) (c : Color) (v : Bool) :
    AllKingsOn (b.setCanCastleKing c v) := by
  unfold ChessBoard.setCanCastleKing
  cases b.getKingId c with
  | none => exact h
  | some kid =>
    show AllKingsOn (b.pieceSet kid (Piece.withCanCastleKing v))
    exact allKingsOn_pieceSet h (fun p => rfl)

theorem allKingsOn_setCanCastleQueen {b : ChessBoard} (h : AllKingsOn b) (c : Color) (v : Bool) :
    AllKingsOn (b.setCanCastleQueen c v) := by
  unfold ChessBoard.setCanCastleQueen
  cases b.getKingId c with
  | none => exact h
  | some kid =>
    show AllKingsOn (b.pieceSet kid (Piece.withCanCastleQueen v))
    exact allKingsOn_pieceSet h (fun p => rfl)

theorem allKingsOn_withTurnHistory {b : ChessBoard} (h : AllKingsOn b) (t : Color)
    (hist : List Move) : AllKingsOn { b with turn := t, history := hist } :=
  fun pid hp => h pid hp

theorem allKingsOn_withWhiteKingSq {b : ChessBoard} (h : AllKingsOn b) (s : Square) :
    AllKingsOn { b with whiteKingSq := s } :=
  fun pid hp => h pid hp

theorem allKingsOn_withBlackKingSq {b : ChessBoard} (h : AllKingsOn b) (s : Square) :
    AllKingsOn { b with blackKingSq := s } :=
  fun pid hp => h pid hp

theorem allKingsOn_makeMove {b : ChessBoard} {m : Move} (h : AllKingsOn b)
    (hmv : (b.pieceGet m.movePieceId).kind = PieceKind.king) :
    AllKingsOn (b.makeMove m) := by
  have h1 : AllKingsOn (makeMoveTiles b m) := by
    unfold makeMoveTiles
    exact allKingsOn_tileSet_none (allKingsOn_tileSet_some h hmv _) _
  have h2 : AllKingsOn (makeMoveDoubleStepSet (makeMoveTiles b m) m) := by
    unfold makeMoveDoubleStepSet
    split
    · exact allKingsOn_pieceSet h1 (fun p => rfl)
    · exact h1
  have h3 : AllKingsOn (makeMoveClearPrev (makeMoveDoubleStepSet (makeMoveTiles b m) m)) := by
    unfold makeMoveClearPrev
    split
    · split
      · exact allKingsOn_pieceSet h2 (fun p => rfl)
      · exact h2
    · exact h2
  have h4 : AllKingsOn (makeMoveEnPassant
      (makeMoveClearPrev (makeMoveDoubleStepSet (makeMoveTiles b m) m)) m) := by
    unfold makeMoveEnPassant
    split
    · exact allKingsOn_tileSet_none h3 _
    · exact h3
  have h5 : AllKingsOn (makeMoveKingTrack (makeMoveEnPassant
      (makeMoveClearPrev (makeMoveDoubleStepSet (makeMoveTiles b m) m)) m) m) := by
    unfold makeMoveKingTrack
    split
    · split
      · exact allKingsOn_withWhiteKingSq h4 _
      · exact allKingsOn_withBlackKingSq h4 _
    · exact h4
  have h6 : AllKingsOn (makeMoveCancels (makeMoveKingTrack (makeMoveEnPassant
      (makeMoveClearPrev (makeMoveDoubleStepSet (makeMoveTiles b m) m)) m) m) m) := by
    unfold makeMoveCancels makeMoveCancelKing makeMoveCancelQueen
    split <;> split
    · exact allKingsOn_setCanCastleKing (allKingsOn_setCanCastleQueen h5 _ _) _ _
    · exact allKingsOn_setCanCastleKing h5 _ _
    · exact allKingsOn_setCanCastleQueen h5 _ _
    · exact h5
  have h7 : AllKingsOn (makeMoveCastleRook (makeMoveCancels (makeMoveKingTrack (makeMoveEnPassant
      (makeMoveClearPrev (makeMoveDoubleStepSet (makeMoveTiles b m) m)) m) m) m) m) := by
    unfold makeMoveCastleRook
    split
    · split
      · exact allKingsOn_tileSet_none (allKingsOn_tileSet_src h6 _ _) _
      · exact allKingsOn_tileSet_none (allKingsOn_tileSet_src h6 _ _) _
    · exact h6
  exact allKingsOn_withTurnHistory h7 _ _

theorem allKingsOn_undoMove {b : ChessBoard} {m : Move} (h : AllKingsOn b)
    (hmv : (b.pieceGet m.movePieceId).kind = PieceKind.king)
    (hcap : ∀ cp, m.capturePieceId = some cp → (b.pieceGet cp).kind = PieceKind.king) :
    AllKingsOn (b.undoMove m) := by
  have h1 : AllKingsOn (if m.isEnPassant then undoEpTiles b m
      else undoCastleRook (undoCancels (undoKingTrack (undoOrdTiles b m) m) m) m) := by
    split
    · unfold undoEpTiles
      apply allKingsOn_tileSet_opt
      · exact allKingsOn_tileSet_none (allKingsOn_tileSet_some h hmv _) _
      · intro q hq
        rw [pieceGet_tileSet, pieceGet_tileSet]
        exact hcap q hq
    · have hA : AllKingsOn (undoOrdTiles b m) := by
        unfold undoOrdTiles
        apply allKingsOn_tileSet_opt (allKingsOn_tileSet_some h hmv _)
        intro q hq
        rw [pieceGet_tileSet]
        exact hcap q hq
      have hB : AllKingsOn (undoKingTrack (undoOrdTiles b m) m) := by
        unfold undoKingTrack
        split
        · split
          · exact allKingsOn_withBlackKingSq hA _
          · exact allKingsOn_withWhiteKingSq hA _
        · exact hA
      have hC : AllKingsOn (undoCancels (undoKingTrack (undoOrdTiles b m) m) m) := by
        unfold undoCancels undoCancelKing undoCancelQueen
        split <;> split
        · exact allKingsOn_setCanCastleKing (allKingsOn_setCanCastleQueen hB _ _) _ _
        · exact allKingsOn_setCanCastleKing hB _ _
        · exact allKingsOn_setCanCastleQueen hB _ _
        · exact hB
      unfold undoCastleRook
      split
      · split
        · exact allKingsOn_tileSet_none (allKingsOn_tileSet_src hC _ _) _
        · exact allKingsOn_tileSet_none (allKingsOn_tileSet_src hC _ _) _
      · exact hC
  have h2 : AllKingsOn (undoDoubleStepClear (if m.isEnPassant then undoEpTiles b m
      else undoCastleRook (undoCancels (undoKingTrack (undoOrdTiles b m) m) m) m) m) := by
    unfold undoDoubleStepClear
    split
    · exact allKingsOn_pieceSet h1 (fun p => rfl)
    · exact h1
  have h3 : AllKingsOn (undoRestorePrev (undoDoubleStepClear (if m.isEnPassant then undoEpTiles b m
      else undoCastleRook (undoCancels (undoKingTrack (undoOrdTiles b m) m) m) m) m)) := by
    unfold undoRestorePrev
    split
    · split
      · exact allKingsOn_pieceSet h2 (fun p => rfl)
      · exact h2
    · exact h2
  intro pid hp
  exact h3 pid hp

theorem Color.other_other (c : Color) : c.other.other = c := by
  cases c <;> rfl

theorem withTurn_self (b : ChessBoard) : ({ b with turn := b.turn } : ChessBoard) = b := rfl

theorem history_tileSet (b : ChessBoard) (s : Square) (v : Option PieceId) :
    (b.tileSet s v).history = b.history := by
  cases s <;> rfl

theorem history_setCanCastleKing (b : ChessBoard) (c : Color) (v : Bool) :
    (b.setCanCastleKing c v).history = b.history := by
  unfold ChessBoard.setCanCastleKing
  cases b.getKingId c <;> rfl

theorem history_setCanCastleQueen (b : ChessBoard) (c : Color) (v : Bool) :
    (b.setCanCastleQueen c v).history = b.history := by
  unfold ChessBoard.setCanCastleQueen
  cases b.getKingId c <;> rfl

theorem makeMove_history (b : ChessBoard) (m : Move) :
    (b.makeMove m).history = m :: b.history := by
  show m :: (makeMoveCastleRook _ m).history = _
  have h7 : ∀ b' : ChessBoard, (makeMoveCastleRook b' m).history = b'.history := by
    intro b'
    unfold makeMoveCastleRook
    split
    · split <;> rw [history_tileSet, history_tileSet]
    · rfl
  have h6 : ∀ b' : ChessBoard, (makeMoveCancels b' m).history = b'.history := by
    intro b'
    unfold makeMoveCancels makeMoveCancelKing makeMoveCancelQueen
    split <;> split <;> simp only [history_setCanCastleKing, history_setCanCastleQueen]
  have h5 : ∀ b' : ChessBoard, (makeMoveKingTrack b' m).history = b'.history := by
    intro b'
    unfold makeMoveKingTrack
    split
    · split <;> rfl
    · rfl
  have h4 : ∀ b' : ChessBoard, (makeMoveEnPassant b' m).history = b'.history := by
    intro b'
    unfold makeMoveEnPassant
    split
    · rw [history_tileSet]
    · rfl
  have h3 : ∀ b' : ChessBoard, (makeMoveClearPrev b').history = b'.history := by
    intro b'
    unfold makeMoveClearPrev
    split
    · split <;> rfl
    · rfl
  have h2 : ∀ b' : ChessBoard, (makeMoveDoubleStepSet b' m).history = b'.history := by
    intro b'
    unfold makeMoveDoubleStepSet
    split <;> rfl
  have h1 : ∀ b' : ChessBoard, (makeMoveTiles b' m).history = b'.history := by
    intro b'
    unfold makeMoveTiles
    rw [history_tileSet, history_tileSet]
  rw [h7, h6, h5, h4, h3, h2, h1]

theorem allKingsOn_undoLastMove_of_makeMove {b : ChessBoard} {m : Move} (h : AllKingsOn b)
    (hmv : (b.pieceGet m.movePieceId).kind = PieceKind.king)
    (hcap : ∀ cp, m.capturePieceId = some cp → (b.pieceGet cp).kind = PieceKind.king) :
    AllKingsOn ((b.makeMove m).undoLastMove) := by
  have hmk := allKingsOn_makeMove h hmv
  unfold ChessBoard.undoLastMove
  split
  · next hnil => exact hmk
  · next m' rest hhist =>
    rw [makeMove_history b m] at hhist
    injection hhist with hm1 hm2
    subst hm1
    apply allKingsOn_undoMove
    · intro pid hp
      exact hmk pid hp
    · show (((b.makeMove m).pieceGet m.movePieceId).kind = PieceKind.king)
      rw [kind_makeMove]
      exact hmv
    · intro cp hcp
      show (((b.makeMove m).pieceGet cp).kind = PieceKind.king)
      rw [kind_makeMove]
      exact hcap cp hcp

theorem filterIllegal_allKings {fn : ChessBoard → Bool} {ms : List Move} {b : ChessBoard}
    (h : AllKingsOn b)
    (hk : ∀ m' ∈ ms, (b.pieceGet m'.movePieceId).kind = PieceKind.king ∧
      ∀ cp, m'.capturePieceId = some cp → (b.pieceGet cp).kind = PieceKind.king) :
    AllKingsOn (filterIllegal fn b ms).2 := by
  induction ms generalizing b with
  | nil => exact h
  | cons m' ms ih =>
    have hstep : (filterIllegal fn b (m' :: ms)).2 =
        (filterIllegal fn
          (({ b.makeMove m' with
              turn := ((b.makeMove m').turn.other).other } : ChessBoard)).undoLastMove ms).2 := rfl
    rw [hstep, Color.other_other, withTurn_self]
    have hm' := hk m' (List.mem_cons_self m' ms)
    apply ih
    · exact allKingsOn_undoLastMove_of_makeMove h hm'.1 hm'.2
    · intro x hx
      have hkx := hk x (List.mem_cons_of_mem m' hx)
      constructor
      · show ((((b.makeMove m').undoLastMove).pieceGet x.movePieceId).kind = PieceKind.king)
        rw [kind_undoLastMove, kind_makeMove]
        exact hkx.1
      · intro cp hcp
        show ((((b.makeMove m').undoLastMove).pieceGet cp).kind = PieceKind.king)
        rw [kind_undoLastMove, kind_makeMove]
        exact hkx.2 cp hcp

theorem getLegalMoves_allKings {fn : ChessBoard → Bool} {b : ChessBoard} {sq : Square}
    {ill cc : Bool} (h : AllKingsOn b) :
    AllKingsOn (ChessBoard.getLegalMoves fn b sq ill cc).2 := by
  unfold ChessBoard.getLegalMoves
  split
  · next pid hocc =>
    split
    · apply filterIllegal_allKings h
      intro m' hm'
      obtain ⟨hmv, _, _, _, _, hcap⟩ := sane_possibleMoves m' hm'
      have hpid : (b.pieceGet pid).kind = PieceKind.king := h pid ⟨sq, optGetDSome hocc⟩
      constructor
      · rw [hmv]; exact hpid
      · intro cp hcp
        obtain ⟨sq', hsq'⟩ := hcap cp hcp
        exact h cp ⟨sq', hsq'⟩
    · exact h
  · split
    · apply filterIllegal_allKings h
      intro m' hm'
      cases hm'
    · exact h

theorem collectLegal_allKings {fn : ChessBoard → Bool} {ill cc : Bool}
    {ts : List (Square × PieceId)} {b : ChessBoard} (h : AllKingsOn b) :
    AllKingsOn (collectLegal fn ill cc ts b).2 := by
  induction ts generalizing b with
  | nil => exact h
  | cons t ts ih =>
    show AllKingsOn (collectLegal fn ill cc ts (ChessBoard.getLegalMoves fn b t.1 ill cc).2).2
    exact ih (getLegalMoves_allKings h)

theorem getAllLegalMoves_allKings {fn : ChessBoard → Bool} {b : ChessBoard} {ill cc : Bool}
    (h : AllKingsOn b) : AllKingsOn (ChessBoard.getAllLegalMoves fn b ill cc).2 :=
  collectLegal_allKings h

/-- Claim C5: whenever, after tentatively applying a move, neither side has
any non-king piece remaining, `calculateCheckType` classifies the move as
the no-material draw — this outcome is tested first, before check,
checkmate and stalemate. -/
theorem calculateCheckType_nomaterial (b : ChessBoard) (m : Move)
    (h : ∀ t ∈ (b.makeMove m).getAllPieceTiles,
        ((b.makeMove m).pieceGet t.2).kind = PieceKind.king) :
    (b.calculateCheckType m).1 = CheckType.nomaterial := by
  have hAK : AllKingsOn (b.makeMove m) := by
    rintro pid ⟨sq, hsq⟩
    cases sq with
    | invalid => cases hsq
    | valid f r => exact h (Square.valid f r, pid) (tileGet_mem_getAllPieceTiles hsq)
  have hAK2 : AllKingsOn
      (ChessBoard.getAllLegalMoves ChessBoard.isInCheck (b.makeMove m) true false).2 :=
    getAllLegalMoves_allKings hAK
  have hno : (! ((ChessBoard.getAllLegalMoves ChessBoard.isInCheck (b.makeMove m)
        true false).2.getAllPieceTiles.any
      fun t => ! ((ChessBoard.getAllLegalMoves ChessBoard.isInCheck (b.makeMove m)
        true false).2.pieceGet t.2).kind.isKing)) = true := by
    rw [Bool.not_eq_true', List.any_eq_false]
    intro t ht
    have := hAK2 t.2
      ⟨t.1, getAllPieceTiles_mem_tileGet ht⟩
    simp [isKing_iff.mpr this]
  simp only [ChessBoard.calculateCheckType]
  rw [hno]
  rfl

theorem calculateCheckType_nomaterial_witness :
    (∀ t ∈ (cbKings.makeMove mKingD1).getAllPieceTiles,
      ((cbKings.makeMove mKingD1).pieceGet t.2).kind = PieceKind.king) ∧
    (cbKings.calculateCheckType mKingD1).1 = CheckType.nomaterial :=
  ⟨by decide, calculateCheckType_nomaterial cbKings mKingD1 (by decide)⟩
